import Mathlib

/-!
Verification of the drag-and-drop engine (list reordering / cross-list move).

The definitions below are a shallow embedding of the repository's code:

* `commitDrop` embeds `commitDrop` from `src/context/DragContext.tsx`
  (lines 114-177).  JavaScript arrays become `List`, the stable
  `Array.prototype.sort` with an `a.order - b.order` comparator becomes a
  stable insertion sort by key, `Array.prototype.splice` keeps its
  from-the-end semantics for negative start indices, and the places where
  the JavaScript code would dereference `undefined` (the non-null
  assertion on `find`, or `updated[-1]`) are modelled by `Option`, a
  `none` result standing for the thrown `TypeError`.
* `hitTest1` embeds the first `hitTest` of `src/components/TaskItem.tsx`
  (lines 75-113: candidate list from `listLayouts`, items of the list
  excluding the dragged one, sorted by `order`).
* `hitTest2` embeds the second `hitTest` of the same file (lines 440-524:
  candidate list derived from item extents with a `listLayouts` fallback
  for empty lists, items of the list sorted by `pageY`, no exclusion of
  the dragged item).
* `checkAutoScroll` embeds the scroll-delta computation of
  `checkAutoScroll` (lines 120-137 / 545-562); screen coordinates are
  modelled by `ℚ`.
-/

/-- A task record, from `TaskItem` in `src/data.ts`. -/
structure TaskItem where
  taskId : String
  listId : String
  order : Int
  title : String
  description : String
deriving DecidableEq, Repr, Inhabited

/-- One step of a stable insertion sort by key: place `x` before the first
element whose key is strictly larger, after all elements with an equal or
smaller key.  Models the stability of `Array.prototype.sort`. -/
def insertK {β : Type} [LinearOrder β] (k : α → β) (x : α) : List α → List α
  | [] => [x]
  | y :: ys => if k x ≤ k y then x :: y :: ys else y :: insertK k x ys

/-- Stable insertion sort by key, modelling
`arr.sort((a, b) => k(a) - k(b))`. -/
def sortK {β : Type} [LinearOrder β] (k : α → β) : List α → List α
  | [] => []
  | x :: xs => insertK k x (sortK k xs)

/-- `tasks.sort((a, b) => a.order - b.order)`. -/
def sortByOrder (ts : List TaskItem) : List TaskItem :=
  sortK (fun t => t.order) ts

/-- The start position used by `arr.splice(t, 0, x)`: a negative `t`
counts from the end (clamped at 0), a non-negative `t` is clamped to the
length. -/
def spliceStart (t : Int) (len : Nat) : Nat :=
  if t < 0 then ((len : Int) + t).toNat else min t.toNat len

/-- `arr.splice(t, 0, x)`: insert `x` at the JavaScript splice start
position. -/
def spliceInsert (xs : List α) (t : Int) (x : α) : List α :=
  xs.take (spliceStart t xs.length) ++ x :: xs.drop (spliceStart t xs.length)

/-- `updated[updated.findIndex(t => t.taskId === tid)].order = o` for one
task id: overwrite the order of the first task with id `tid`; `none` when
no task matches (the JavaScript code would then write through
`updated[-1]` and throw). -/
def setOrderFirst (tid : String) (o : Int) : List TaskItem → Option (List TaskItem)
  | [] => none
  | t :: ts =>
    if t.taskId == tid then some ({ t with order := o } :: ts)
    else (setOrderFirst tid o ts).map (t :: ·)

/-- The `seq.forEach((task, i) => { updated[findIndex...].order = i })`
loop of `commitDrop`: assign position-based orders for every task of
`seq`, writing into `upd` by task id. -/
def writeOrders (seq : List TaskItem) (i0 : Nat) (upd : List TaskItem) :
    Option (List TaskItem) :=
  match seq with
  | [] => some upd
  | s :: ss => (setOrderFirst s.taskId (Int.ofNat i0) upd).bind (writeOrders ss (i0 + 1))

/-- `Array.prototype.findIndex`, with `none` for `-1`. -/
def findIndex (p : TaskItem → Bool) : List TaskItem → Option Nat
  | [] => none
  | t :: ts => if p t then some 0 else (findIndex p ts).map (· + 1)

/-- `commitDrop` from `src/context/DragContext.tsx` (lines 114-177), as a
pure transformation of the task collection.  `none` models the
`TypeError` the JavaScript code throws when `sourceTaskId` has no match
(the `find(...)!` assertion in the same-list branch, `updated[-1]` in the
cross-list branch). -/
def commitDrop (sourceTaskId sourceListId targetListId : String) (targetIndex : Int)
    (prevTasks : List TaskItem) : Option (List TaskItem) :=
  let updated := prevTasks
  if sourceListId == targetListId then
    let listTasks := sortByOrder (updated.filter (fun t => t.listId == sourceListId))
    match listTasks.find? (fun t => t.taskId == sourceTaskId) with
    | none => none
    | some dragged =>
      let rest := listTasks.filter (fun t => t.taskId != sourceTaskId)
      writeOrders (spliceInsert rest targetIndex dragged) 0 updated
  else
    match findIndex (fun t => t.taskId == sourceTaskId) updated with
    | none => none
    | some draggedIdx =>
      let updated1 := updated.set draggedIdx
        { updated.getD draggedIdx default with listId := targetListId }
      let sourceRemaining := sortByOrder (updated1.filter (fun t => t.listId == sourceListId))
      (writeOrders sourceRemaining 0 updated1).bind (fun updated2 =>
        let dragged := updated2.getD draggedIdx default
        let targetAll := sortByOrder (updated2.filter (fun t => t.listId == targetListId))
        let withoutDragged := targetAll.filter (fun t => t.taskId != sourceTaskId)
        writeOrders (spliceInsert withoutDragged targetIndex dragged) 0 updated2)

/-- Registry entry for one item, from `ItemLayout` in
`src/context/DragContext.tsx`. -/
structure ItemLayout where
  taskId : String
  listId : String
  pageY : ℚ
  height : ℚ
  order : Int
deriving DecidableEq, Repr

/-- Registry entry for one list container, from `ListLayout` in
`src/context/DragContext.tsx`. -/
structure ListLayout where
  listId : String
  pageY : ℚ
  height : ℚ
deriving DecidableEq, Repr

/-- `items.sort((a, b) => a.order - b.order)` on layout entries. -/
def sortItemsByOrder (ils : List ItemLayout) : List ItemLayout :=
  sortK (fun it => it.order) ils

/-- `items.sort((a, b) => a.pageY - b.pageY)` on layout entries. -/
def sortItemsByPageY (ils : List ItemLayout) : List ItemLayout :=
  sortK (fun it => it.pageY) ils

/-- The insertion-slot loop shared by both `hitTest` versions: the first
index whose item midpoint lies strictly below the finger
(`fingerY < item.pageY + item.height / 2`), defaulting to the length. -/
def findInsert (y : ℚ) : List ItemLayout → Nat
  | [] => 0
  | it :: rest => if y < it.pageY + it.height / 2 then 0 else findInsert y rest + 1

/-- `fingerY >= list.pageY && fingerY <= list.pageY + list.height`. -/
def insideListLayout (y : ℚ) (l : ListLayout) : Bool :=
  decide (l.pageY ≤ y ∧ y ≤ l.pageY + l.height)

/-- First `hitTest` of `src/components/TaskItem.tsx` (lines 75-113): the
candidate list is the first `listLayouts` entry containing the finger;
the insertion index is computed over the list's items excluding the
dragged one, sorted by `order`. -/
def hitTest1 (itemLayouts : List ItemLayout) (listLayouts : List ListLayout)
    (draggedTaskId : Option String) (fingerY : ℚ) : Option String × Int :=
  match listLayouts.find? (insideListLayout fingerY) with
  | none => (none, -1)
  | some l =>
    let listItems := sortItemsByOrder (itemLayouts.filter
      (fun it => it.listId == l.listId && some it.taskId != draggedTaskId))
    (some l.listId, Int.ofNat (findInsert fingerY listItems))

/-- The `seenListIds` accumulation loop of the second `hitTest`: append
each id not already present, preserving first-occurrence order. -/
def collectListIds (acc : List String) : List String → List String
  | [] => acc
  | lid :: rest =>
    if acc.contains lid then collectListIds acc rest
    else collectListIds (acc ++ [lid]) rest

/-- The candidate test of the second `hitTest`: a list with items spans
from the top of its first item to the bottom of its last (sorted by
`pageY`); an empty list falls back to its `listLayouts` entry. -/
def insideItemsOrLayout (itemLayouts : List ItemLayout) (listLayouts : List ListLayout)
    (y : ℚ) (lid : String) : Bool :=
  match sortItemsByPageY (itemLayouts.filter (fun it => it.listId == lid)) with
  | [] =>
    match listLayouts.find? (fun l => l.listId == lid) with
    | some l => insideListLayout y l
    | none => false
  | first :: rest =>
    let lastIt := (first :: rest).getLast (List.cons_ne_nil _ _)
    decide (first.pageY ≤ y ∧ y ≤ lastIt.pageY + lastIt.height)

/-- Second `hitTest` of `src/components/TaskItem.tsx` (lines 440-524):
candidate lists are derived from the item registry (with a `listLayouts`
fallback for empty lists); the insertion index is computed over ALL of
the candidate list's items sorted by `pageY` — the dragged item is not
excluded. -/
def hitTest2 (itemLayouts : List ItemLayout) (listLayouts : List ListLayout)
    (draggedTaskId : Option String) (fingerY : ℚ) : Option String × Int :=
  let seen := collectListIds (collectListIds [] (itemLayouts.map (·.listId)))
    (listLayouts.map (·.listId))
  match seen.find? (insideItemsOrLayout itemLayouts listLayouts fingerY) with
  | none => (none, -1)
  | some lid =>
    let listItems := sortItemsByPageY (itemLayouts.filter (fun it => it.listId == lid))
    (some lid, Int.ofNat (findInsert fingerY listItems))

/-- Scroll-offset delta applied by `checkAutoScroll`
(`src/components/TaskItem.tsx` lines 120-137): inside the 80-unit top
zone the offset decreases by `(topThreshold - fingerY) * 0.3`, inside the
bottom zone it increases by `(fingerY - bottomThreshold) * 0.3`,
otherwise no scroll command is issued (delta 0). -/
def checkAutoScroll (scrollPageY scrollHeight fingerY : ℚ) : ℚ :=
  let topThreshold := scrollPageY + 80
  let bottomThreshold := scrollPageY + scrollHeight - 80
  if fingerY < topThreshold then -((topThreshold - fingerY) * (3 / 10))
  else if fingerY > bottomThreshold then (fingerY - bottomThreshold) * (3 / 10)
  else 0

/-- The members of list `L` in a task collection. -/
def members (ts : List TaskItem) (L : String) : List TaskItem :=
  ts.filter (fun t => t.listId == L)

/-- The order values of a list's members form exactly the dense set
`{0, 1, ..., n-1}` (as a multiset), `n` the number of members. -/
def DenseList (l : List TaskItem) : Prop :=
  List.Perm (l.map (·.order)) ((List.range l.length).map Int.ofNat)

/-- A task collection is keyed by `taskId`: no two entries share an id. -/
def UniqueIds (ts : List TaskItem) : Prop :=
  (ts.map (·.taskId)).Nodup

/-- A settled collection: unique ids and every list's orders dense. -/
def Settled (ts : List TaskItem) : Prop :=
  UniqueIds ts ∧ ∀ L, DenseList (members ts L)

instance (ts : List TaskItem) : Decidable (UniqueIds ts) :=
  List.nodupDecidable _

instance (l : List TaskItem) : Decidable (DenseList l) :=
  List.decidablePerm _ _

/-- Position of the first occurrence of `x`. -/
def posOf (x : String) : List String → Nat
  | [] => 0
  | y :: ys => if y == x then 0 else posOf x ys + 1

/-- The effect of one `writeOrders` pass on a single task: if the task's
id occurs in `seq` (first occurrence at offset `p`), its order becomes
`i0 + p`; otherwise it is untouched. -/
def orderAssign (seq : List TaskItem) (i0 : Nat) (t : TaskItem) : TaskItem :=
  match seq with
  | [] => t
  | s :: ss =>
    if s.taskId == t.taskId then { t with order := Int.ofNat i0 }
    else orderAssign ss (i0 + 1) t

/-- Modelled from the spec (section 4.2, steps 2-3): the insertion index
described by the specification — taken over the candidate list's items
excluding the dragged one, sorted ascending by vertical position.  Used
to compare the specified computation against `hitTest1`/`hitTest2`. -/
def specHitIndex (itemLayouts : List ItemLayout) (draggedTaskId : Option String)
    (lid : String) (y : ℚ) : Nat :=
  findInsert y (sortItemsByPageY (itemLayouts.filter
    (fun it => it.listId == lid && some it.taskId != draggedTaskId)))

/-! ### Generic list lemmas -/

theorem filter_map_comm (f : α → β) (p : β → Bool) (l : List α) :
    (l.map f).filter p = (l.filter (fun a => p (f a))).map f := by
  induction l with
  | nil => rfl
  | cons a l ih => by_cases h : p (f a) <;> simp [List.filter_cons, h, ih]

theorem map_eq_self (f : α → α) (l : List α) (h : ∀ a ∈ l, f a = a) : l.map f = l := by
  induction l with
  | nil => rfl
  | cons a l ih =>
    simp only [List.map_cons, h a (List.mem_cons_self a l),
      ih (fun b hb => h b (List.mem_cons_of_mem _ hb))]

theorem filter_eq_self_of_forall (p : α → Bool) (l : List α) (h : ∀ a ∈ l, p a = true) :
    l.filter p = l := by
  induction l with
  | nil => rfl
  | cons a l ih =>
    simp only [List.filter_cons, h a (List.mem_cons_self a l), if_pos]
    rw [ih (fun b hb => h b (List.mem_cons_of_mem _ hb))]

/-! ### Stable insertion sort lemmas -/

theorem insertK_perm {β : Type} [LinearOrder β] (k : α → β) (x : α) (l : List α) :
    List.Perm (insertK k x l) (x :: l) := by
  induction l with
  | nil => exact List.Perm.refl _
  | cons y ys ih =>
    by_cases h : k x ≤ k y
    · simp only [insertK, if_pos h]
      exact List.Perm.refl _
    · simp only [insertK, if_neg h]
      exact (ih.cons y).trans (List.Perm.swap x y ys)

theorem sortK_perm {β : Type} [LinearOrder β] (k : α → β) (l : List α) :
    List.Perm (sortK k l) l := by
  induction l with
  | nil => exact List.Perm.refl _
  | cons x xs ih => exact (insertK_perm k x (sortK k xs)).trans (ih.cons x)

theorem insertK_pairwise {β : Type} [LinearOrder β] (k : α → β) (x : α) (l : List α)
    (h : l.Pairwise (fun a b => k a ≤ k b)) :
    (insertK k x l).Pairwise (fun a b => k a ≤ k b) := by
  induction l with
  | nil => simp [insertK]
  | cons y ys ih =>
    rcases List.pairwise_cons.mp h with ⟨hy, hys⟩
    by_cases hxy : k x ≤ k y
    · simp only [insertK, if_pos hxy]
      refine List.pairwise_cons.mpr ⟨?_, h⟩
      intro b hb
      rcases List.mem_cons.mp hb with rfl | hb2
      · exact hxy
      · exact le_trans hxy (hy b hb2)
    · simp only [insertK, if_neg hxy]
      refine List.pairwise_cons.mpr ⟨?_, ih hys⟩
      intro b hb
      rcases List.mem_cons.mp ((insertK_perm k x ys).mem_iff.mp hb) with rfl | hb3
      · exact le_of_not_le hxy
      · exact hy b hb3

theorem sortK_pairwise {β : Type} [LinearOrder β] (k : α → β) (l : List α) :
    (sortK k l).Pairwise (fun a b => k a ≤ k b) := by
  induction l with
  | nil => exact List.Pairwise.nil
  | cons x xs ih => exact insertK_pairwise k x _ ih

theorem insertK_of_forall_le {β : Type} [LinearOrder β] (k : α → β) (x : α) (l : List α)
    (h : ∀ z ∈ l, k x ≤ k z) : insertK k x l = x :: l := by
  cases l with
  | nil => rfl
  | cons y ys => simp only [insertK, if_pos (h y (List.mem_cons_self y ys))]

theorem filter_insertK {β : Type} [LinearOrder β] (k : α → β) (p : α → Bool) (x : α)
    (l : List α) (hs : l.Pairwise (fun a b => k a ≤ k b)) :
    (insertK k x l).filter p =
      if p x then insertK k x (l.filter p) else l.filter p := by
  induction l with
  | nil => by_cases h : p x <;> simp [insertK, List.filter_cons, h]
  | cons y ys ih =>
    rcases List.pairwise_cons.mp hs with ⟨hy, hys⟩
    by_cases hxy : k x ≤ k y
    · simp only [insertK, if_pos hxy]
      by_cases hpx : p x
      · by_cases hpy : p y
        · simp only [List.filter_cons, hpx, hpy, if_pos, insertK, if_pos hxy]
        · simp only [List.filter_cons, hpx, hpy, if_pos, if_neg, Bool.false_eq_true,
            not_false_iff]
          rw [insertK_of_forall_le]
          intro z hz
          exact le_trans hxy (hy z (List.mem_of_mem_filter hz))
      · simp only [List.filter_cons, hpx, Bool.false_eq_true, if_neg, not_false_iff]
    · simp only [insertK, if_neg hxy]
      by_cases hpx : p x
      · by_cases hpy : p y
        · simp only [List.filter_cons, hpy, if_pos, ih hys, hpx]
          rw [insertK, if_neg hxy]
        · simp only [List.filter_cons, hpy, Bool.false_eq_true, if_neg, not_false_iff,
            ih hys, hpx, if_pos]
      · by_cases hpy : p y <;> simp [List.filter_cons, hpy, ih hys, hpx]

theorem sortK_filter {β : Type} [LinearOrder β] (k : α → β) (p : α → Bool) (l : List α) :
    sortK k (l.filter p) = (sortK k l).filter p := by
  induction l with
  | nil => rfl
  | cons x xs ih =>
    rw [show sortK k (x :: xs) = insertK k x (sortK k xs) from rfl,
      filter_insertK k p x _ (sortK_pairwise k xs)]
    by_cases h : p x
    · simp only [List.filter_cons, h, if_pos]
      rw [show sortK k (x :: xs.filter p) = insertK k x (sortK k (xs.filter p)) from rfl, ih]
    · simp only [List.filter_cons, h, Bool.false_eq_true, if_neg, not_false_iff, ih]

theorem sortByOrder_filter (q : TaskItem → Bool) (l : List TaskItem) :
    sortByOrder (l.filter q) = (sortByOrder l).filter q :=
  sortK_filter _ q l

/-! ### posOf lemmas -/

theorem posOf_lt_length (x : String) (l : List String) (h : x ∈ l) :
    posOf x l < l.length := by
  induction l with
  | nil => cases h
  | cons y ys ih =>
    by_cases hy : y == x
    · simp [posOf, hy]
    · have hx : x ∈ ys := by
        rcases List.mem_cons.mp h with rfl | h2
        · simp at hy
        · exact h2
      simp only [posOf, hy, Bool.false_eq_true, if_neg, not_false_iff, List.length_cons]
      exact Nat.succ_lt_succ (ih hx)

theorem posOf_getElem (l : List String) (i : Nat) (hi : i < l.length) (hn : l.Nodup) :
    posOf l[i] l = i := by
  induction l generalizing i with
  | nil => cases hi
  | cons y ys ih =>
    rcases List.nodup_cons.mp hn with ⟨hy, hys⟩
    cases i with
    | zero => simp [posOf]
    | succ j =>
      have hj : j < ys.length := Nat.lt_of_succ_lt_succ hi
      have hmem : ys[j] ∈ ys := List.getElem_mem hj
      have hne : ¬(y == ys[j]) = true := by
        simp only [beq_iff_eq]
        intro heq
        exact hy (heq ▸ hmem)
      simp only [List.getElem_cons_succ, posOf, hne, Bool.false_eq_true, if_neg,
        not_false_iff]
      rw [ih j hj hys]

theorem map_posOf_eq_range (l : List String) (hn : l.Nodup) :
    l.map (fun x => posOf x l) = List.range l.length := by
  apply List.ext_getElem
  · simp
  · intro i h1 h2
    simp only [List.getElem_map, List.getElem_range]
    exact posOf_getElem l i (by simpa using h1) hn

/-! ### orderAssign lemmas -/

theorem orderAssign_of_not_mem (seq : List TaskItem) (i0 : Nat) (t : TaskItem)
    (h : t.taskId ∉ seq.map (·.taskId)) : orderAssign seq i0 t = t := by
  induction seq generalizing i0 with
  | nil => rfl
  | cons s ss ih =>
    have hs : ¬(s.taskId == t.taskId) = true := by
      simp only [beq_iff_eq]
      intro heq
      exact h (by simp [heq])
    simp only [orderAssign, hs, Bool.false_eq_true, if_neg, not_false_iff]
    exact ih (i0 + 1) (fun hm => h (by simp [List.mem_cons]; right; simpa using hm))

theorem orderAssign_of_mem (seq : List TaskItem) (i0 : Nat) (t : TaskItem)
    (h : t.taskId ∈ seq.map (·.taskId)) :
    orderAssign seq i0 t =
      { t with order := Int.ofNat (i0 + posOf t.taskId (seq.map (·.taskId))) } := by
  induction seq generalizing i0 with
  | nil => simp at h
  | cons s ss ih =>
    by_cases hs : s.taskId == t.taskId
    · have : (s.taskId == t.taskId) = true := hs
      simp only [orderAssign, this, if_pos, List.map_cons, posOf, Nat.add_zero]
    · have hm : t.taskId ∈ ss.map (·.taskId) := by
        rcases List.mem_cons.mp h with heq | h2
        · exact absurd (by simp [heq]) hs
        · exact h2
      simp only [orderAssign, hs, Bool.false_eq_true, if_neg, not_false_iff,
        List.map_cons, posOf]
      rw [ih (i0 + 1) hm]
      have harith : i0 + 1 + posOf t.taskId (ss.map (·.taskId)) =
          i0 + (posOf t.taskId (ss.map (·.taskId)) + 1) := by omega
      rw [harith]

theorem orderAssign_fields (seq : List TaskItem) (i0 : Nat) (t : TaskItem) :
    (orderAssign seq i0 t).taskId = t.taskId ∧ (orderAssign seq i0 t).listId = t.listId ∧
    (orderAssign seq i0 t).title = t.title ∧
    (orderAssign seq i0 t).description = t.description := by
  induction seq generalizing i0 with
  | nil => exact ⟨rfl, rfl, rfl, rfl⟩
  | cons s ss ih => by_cases hs : s.taskId == t.taskId <;> simp [orderAssign, hs, ih]

/-! ### Uniqueness helper -/

theorem uniqueIds_eq_of_taskId {l : List TaskItem} (hu : UniqueIds l) {a b : TaskItem}
    (ha : a ∈ l) (hb : b ∈ l) (h : a.taskId = b.taskId) : a = b :=
  List.inj_on_of_nodup_map hu ha hb h

/-! ### setOrderFirst and writeOrders lemmas -/

theorem setOrderFirst_eq_map (tid : String) (o : Int) (upd : List TaskItem)
    (hu : (upd.map (·.taskId)).Nodup) (hm : tid ∈ upd.map (·.taskId)) :
    setOrderFirst tid o upd =
      some (upd.map (fun t => if t.taskId == tid then { t with order := o } else t)) := by
  induction upd with
  | nil => simp at hm
  | cons t ts ih =>
    rw [List.map_cons] at hu hm
    rcases List.nodup_cons.mp hu with ⟨ht0, hts⟩
    by_cases ht : t.taskId == tid
    · have hteq : t.taskId = tid := by simpa using ht
      have hrest : ts.map (fun u => if u.taskId = tid then { u with order := o } else u)
          = ts := by
        apply map_eq_self
        intro s hsm
        have hne : s.taskId ≠ tid := by
          intro heq
          exact ht0 (by rw [← hteq] at heq; rw [← heq]; exact List.mem_map_of_mem _ hsm)
        simp [hne]
      simp [setOrderFirst, ht, hteq, hrest]
    · have hm2 : tid ∈ ts.map (·.taskId) := by
        rcases List.mem_cons.mp hm with heq | h2
        · exact absurd (by simp [heq]) ht
        · exact h2
      have hne : t.taskId ≠ tid := by simpa using ht
      simp only [setOrderFirst, ht, Bool.false_eq_true, if_neg, not_false_iff]
      rw [ih hts hm2]
      simp [ht, hne]

theorem setOrderFirst_ids (tid : String) (o : Int) (upd upd2 : List TaskItem)
    (h : setOrderFirst tid o upd = some upd2) :
    upd2.map (·.taskId) = upd.map (·.taskId) := by
  induction upd generalizing upd2 with
  | nil => simp [setOrderFirst] at h
  | cons t ts ih =>
    by_cases ht : t.taskId == tid
    · simp only [setOrderFirst, ht, if_pos, Option.some.injEq] at h
      rw [← h]
      rfl
    · simp only [setOrderFirst, ht, Bool.false_eq_true, if_neg, not_false_iff] at h
      cases hrec : setOrderFirst tid o ts with
      | none => rw [hrec] at h; simp at h
      | some u =>
        rw [hrec] at h
        simp only [Option.map, Option.some.injEq] at h
        rw [← h]
        simp [ih u hrec]

theorem setOrderFirst_isSome (tid : String) (o : Int) (upd : List TaskItem)
    (hm : tid ∈ upd.map (·.taskId)) : ∃ u, setOrderFirst tid o upd = some u := by
  induction upd with
  | nil => simp at hm
  | cons t ts ih =>
    rw [List.map_cons] at hm
    by_cases ht : t.taskId == tid
    · refine ⟨{ t with order := o } :: ts, ?_⟩
      simp [setOrderFirst, ht]
    · have hm2 : tid ∈ ts.map (·.taskId) := by
        rcases List.mem_cons.mp hm with heq | h2
        · exact absurd (by simp [heq]) ht
        · exact h2
      obtain ⟨u, hu⟩ := ih hm2
      exact ⟨t :: u, by simp [setOrderFirst, ht, hu]⟩

theorem writeOrders_some (seq : List TaskItem) (i0 : Nat) (upd : List TaskItem)
    (hsub : ∀ s ∈ seq, s.taskId ∈ upd.map (·.taskId)) :
    ∃ u, writeOrders seq i0 upd = some u ∧ u.map (·.taskId) = upd.map (·.taskId) := by
  induction seq generalizing i0 upd with
  | nil => exact ⟨upd, rfl, rfl⟩
  | cons s ss ih =>
    obtain ⟨u1, hu1⟩ := setOrderFirst_isSome s.taskId (Int.ofNat i0) upd
      (hsub s (List.mem_cons_self s ss))
    have hids := setOrderFirst_ids _ _ _ _ hu1
    obtain ⟨u2, hu2, hids2⟩ := ih (i0 + 1) u1
      (fun x hx => by rw [hids]; exact hsub x (List.mem_cons_of_mem _ hx))
    refine ⟨u2, ?_, hids2.trans hids⟩
    rw [writeOrders, hu1, Option.some_bind, hu2]

theorem writeOrders_eq_map (seq : List TaskItem) (i0 : Nat) (upd : List TaskItem)
    (hu : (upd.map (·.taskId)).Nodup) (hseq : (seq.map (·.taskId)).Nodup)
    (hsub : ∀ s ∈ seq, s.taskId ∈ upd.map (·.taskId)) :
    writeOrders seq i0 upd = some (upd.map (orderAssign seq i0)) := by
  induction seq generalizing i0 upd with
  | nil =>
    rw [writeOrders, map_eq_self]
    intro a _
    rfl
  | cons s ss ih =>
    rw [List.map_cons] at hseq
    rcases List.nodup_cons.mp hseq with ⟨hs0, hss⟩
    rw [writeOrders,
      setOrderFirst_eq_map s.taskId (Int.ofNat i0) upd hu (hsub s (List.mem_cons_self s ss)),
      Option.some_bind]
    have hidsf : (upd.map (fun t =>
        if t.taskId == s.taskId then { t with order := Int.ofNat i0 } else t)).map (·.taskId) =
        upd.map (·.taskId) := by
      rw [List.map_map]
      apply List.map_congr_left
      intro t _
      by_cases ht : t.taskId = s.taskId <;> simp [ht]
    rw [ih (i0 + 1) _ (by rw [hidsf]; exact hu) hss
      (fun x hx => by rw [hidsf]; exact hsub x (List.mem_cons_of_mem _ hx))]
    congr 1
    rw [List.map_map]
    apply List.map_congr_left
    intro t _
    by_cases ht : t.taskId = s.taskId
    · have hb : (t.taskId == s.taskId) = true := by simpa using ht
      have hb2 : (s.taskId == t.taskId) = true := by simp [ht]
      simp only [Function.comp_apply, hb, if_pos, orderAssign, hb2]
      apply orderAssign_of_not_mem
      intro hmem
      have hproj : ({ t with order := Int.ofNat i0 } : TaskItem).taskId = s.taskId := ht
      rw [hproj] at hmem
      exact hs0 hmem
    · have hb : ¬(t.taskId == s.taskId) = true := by simpa using ht
      have hb2 : ¬(s.taskId == t.taskId) = true := by
        simp only [beq_iff_eq]
        exact fun heq => ht heq.symm
      simp only [Function.comp_apply, hb, Bool.false_eq_true, if_neg, not_false_iff,
        orderAssign, hb2]

/-! ### findIndex lemmas -/

theorem findIndex_eq_none (p : TaskItem → Bool) (l : List TaskItem)
    (h : ∀ t ∈ l, ¬ p t = true) : findIndex p l = none := by
  induction l with
  | nil => rfl
  | cons t ts ih =>
    simp only [findIndex, h t (List.mem_cons_self t ts), Bool.false_eq_true, if_neg,
      not_false_iff]
    rw [ih (fun x hx => h x (List.mem_cons_of_mem _ hx))]
    rfl

theorem findIndex_spec (l : List TaskItem) (X : TaskItem) (hu : UniqueIds l) (hX : X ∈ l) :
    ∃ i, findIndex (fun t => t.taskId == X.taskId) l = some i ∧ i < l.length ∧
      l.getD i default = X ∧
      ∀ Y, l.set i Y = l.map (fun t => if t.taskId == X.taskId then Y else t) := by
  induction l with
  | nil => cases hX
  | cons a l ih =>
    have hu1 : ((a :: l).map (·.taskId)).Nodup := hu
    rw [List.map_cons] at hu1
    rcases List.nodup_cons.mp hu1 with ⟨ha0, hl⟩
    by_cases ha : a.taskId == X.taskId
    · have haX : a = X := by
        rcases List.mem_cons.mp hX with rfl | h2
        · rfl
        · exact absurd (by simpa using ha)
            (fun heq => ha0 (by rw [heq]; exact List.mem_map_of_mem _ h2))
      refine ⟨0, by simp [findIndex, ha], by simp, by simp [haX], ?_⟩
      intro Y
      simp only [List.set_cons_zero, List.map_cons, ha, if_pos, List.cons.injEq, true_and]
      rw [map_eq_self]
      intro t htm
      have : ¬(t.taskId == X.taskId) = true := by
        simp only [beq_iff_eq]
        intro heq
        subst haX
        exact ha0 (by rw [← heq]; exact List.mem_map_of_mem _ htm)
      simp [this]
    · have hX2 : X ∈ l := by
        rcases List.mem_cons.mp hX with rfl | h2
        · exact absurd (by simp) ha
        · exact h2
      obtain ⟨i, h1, h2, h3, h4⟩ := ih hl hX2
      refine ⟨i + 1, ?_, Nat.succ_lt_succ h2, by simpa using h3, ?_⟩
      · simp [findIndex, ha, h1]
      · intro Y
        simp only [List.set_cons_succ, List.map_cons, ha, Bool.false_eq_true, if_neg,
          not_false_iff, h4 Y]

/-! ### Sorted dense lists -/

theorem sortByOrder_map_order (m : List TaskItem) (hd : DenseList m) :
    (sortByOrder m).map (·.order) = (List.range m.length).map Int.ofNat := by
  have hperm : List.Perm ((sortByOrder m).map (·.order))
      ((List.range m.length).map Int.ofNat) :=
    ((sortK_perm _ m).map _).trans hd
  have hs1 : List.Sorted (· ≤ ·) ((sortByOrder m).map (·.order)) :=
    List.pairwise_map.mpr (sortK_pairwise _ m)
  have hs2 : List.Sorted (· ≤ ·) ((List.range m.length).map Int.ofNat) :=
    List.pairwise_map.mpr
      ((List.pairwise_lt_range _).imp (fun h => Int.ofNat_le.mpr (Nat.le_of_lt h)))
  exact List.eq_of_perm_of_sorted hperm hs1 hs2

/-! ### Permutation lemmas for the commit engine -/

theorem spliceInsert_perm (xs : List α) (t : Int) (x : α) :
    List.Perm (spliceInsert xs t x) (x :: xs) := by
  unfold spliceInsert
  refine List.perm_middle.trans ?_
  rw [List.take_append_drop]

theorem find?_eq_of_unique (l : List TaskItem) (X : TaskItem)
    (hu : (l.map (·.taskId)).Nodup) (hX : X ∈ l) :
    l.find? (fun u => u.taskId == X.taskId) = some X := by
  induction l with
  | nil => cases hX
  | cons a l ih =>
    rw [List.map_cons] at hu
    rcases List.nodup_cons.mp hu with ⟨ha0, hl⟩
    by_cases ha : a.taskId = X.taskId
    · have haX : a = X := by
        rcases List.mem_cons.mp hX with rfl | h2
        · rfl
        · exact absurd (by rw [ha]; exact List.mem_map_of_mem _ h2) ha0
      rw [List.find?_cons_of_pos _ (by simp [ha])]
      rw [haX]
    · have hX2 : X ∈ l := by
        rcases List.mem_cons.mp hX with rfl | h2
        · exact absurd rfl ha
        · exact h2
      rw [List.find?_cons_of_neg _ (by simp [ha])]
      exact ih hl hX2

theorem filter_ne_perm (l : List TaskItem) (X : TaskItem)
    (hu : (l.map (·.taskId)).Nodup) (hX : X ∈ l) :
    List.Perm (X :: l.filter (fun u => u.taskId != X.taskId)) l := by
  induction l with
  | nil => cases hX
  | cons a l ih =>
    rw [List.map_cons] at hu
    rcases List.nodup_cons.mp hu with ⟨ha0, hl⟩
    by_cases ha : a.taskId = X.taskId
    · have haX : a = X := by
        rcases List.mem_cons.mp hX with rfl | h2
        · rfl
        · exact absurd (by rw [ha]; exact List.mem_map_of_mem _ h2) ha0
      subst haX
      have hfl : l.filter (fun u => u.taskId != a.taskId) = l := by
        apply filter_eq_self_of_forall
        intro u hum
        have : u.taskId ≠ a.taskId := by
          intro heq
          exact ha0 (by rw [← heq]; exact List.mem_map_of_mem _ hum)
        simpa using this
      rw [List.filter_cons, if_neg (by simp)]
      rw [hfl]
    · have hX2 : X ∈ l := by
        rcases List.mem_cons.mp hX with rfl | h2
        · exact absurd rfl ha
        · exact h2
      rw [List.filter_cons, if_pos (by simpa using fun heq => ha heq)]
      exact (List.Perm.swap a X _).trans ((ih hl hX2).cons a)

theorem mem_members {t : TaskItem} {ts : List TaskItem} {L : String} :
    t ∈ members ts L ↔ t ∈ ts ∧ t.listId = L := by
  simp [members, List.mem_filter]

theorem uniqueIds_members (ts : List TaskItem) (hu : UniqueIds ts) (L : String) :
    ((members ts L).map (·.taskId)).Nodup :=
  List.Nodup.sublist ((List.filter_sublist ts).map _) hu

theorem sortByOrder_ids_nodup (l : List TaskItem) (h : (l.map (·.taskId)).Nodup) :
    ((sortByOrder l).map (·.taskId)).Nodup :=
  (((sortK_perm _ l).map (·.taskId)).nodup_iff).mpr h

theorem mem_sortByOrder {t : TaskItem} {l : List TaskItem} :
    t ∈ sortByOrder l ↔ t ∈ l :=
  (sortK_perm _ l).mem_iff

/-! ### Same-list branch characterization -/

theorem commitDrop_same_eq (ts : List TaskItem) (X : TaskItem) (src : String) (t : Int)
    (hu : UniqueIds ts) (hX : X ∈ ts) (hL : X.listId = src) :
    commitDrop X.taskId src src t ts =
      some (ts.map (orderAssign
        (spliceInsert ((sortByOrder (members ts src)).filter
          (fun u => u.taskId != X.taskId)) t X) 0)) := by
  have hXm : X ∈ members ts src := mem_members.mpr ⟨hX, hL⟩
  have hXs : X ∈ sortByOrder (members ts src) := mem_sortByOrder.mpr hXm
  have hids : ((sortByOrder (members ts src)).map (·.taskId)).Nodup :=
    sortByOrder_ids_nodup _ (uniqueIds_members ts hu src)
  unfold commitDrop
  rw [if_pos (by simp)]
  have hfind : (sortByOrder (ts.filter (fun u => u.listId == src))).find?
      (fun u => u.taskId == X.taskId) = some X :=
    find?_eq_of_unique _ X hids hXs
  dsimp only
  rw [hfind]
  have hperm1 : List.Perm
      (spliceInsert ((sortByOrder (members ts src)).filter
        (fun u => u.taskId != X.taskId)) t X)
      (sortByOrder (members ts src)) :=
    (spliceInsert_perm _ t X).trans (filter_ne_perm _ X hids hXs)
  apply writeOrders_eq_map
  · exact hu
  · exact ((hperm1.map (·.taskId)).nodup_iff).mpr hids
  · intro s hs
    have hsm : s ∈ sortByOrder (members ts src) := hperm1.mem_iff.mp hs
    have : s ∈ ts := (mem_members.mp (mem_sortByOrder.mp hsm)).1
    exact List.mem_map_of_mem _ this

/-! ### Density after an order reassignment pass -/

theorem members_map_of_preserve (f : TaskItem → TaskItem) (ts : List TaskItem) (L : String)
    (hf : ∀ u, (f u).listId = u.listId) :
    members (ts.map f) L = (members ts L).map f := by
  unfold members
  rw [filter_map_comm]
  congr 1
  apply List.filter_congr
  intro u _
  rw [hf u]

theorem denseList_map_orderAssign (m seq : List TaskItem)
    (hs : (seq.map (·.taskId)).Nodup)
    (hperm : List.Perm (m.map (·.taskId)) (seq.map (·.taskId))) :
    DenseList (m.map (orderAssign seq 0)) := by
  unfold DenseList
  rw [List.length_map]
  have hlen : m.length = seq.length := by
    have h := hperm.length_eq
    simpa using h
  have h1 : (m.map (orderAssign seq 0)).map (·.order) =
      (m.map (·.taskId)).map (fun x => Int.ofNat (posOf x (seq.map (·.taskId)))) := by
    rw [List.map_map, List.map_map]
    apply List.map_congr_left
    intro u hum
    have humem : u.taskId ∈ seq.map (·.taskId) :=
      hperm.mem_iff.mp (List.mem_map_of_mem _ hum)
    simp only [Function.comp_apply]
    rw [orderAssign_of_mem seq 0 u humem]
    simp
  rw [h1]
  refine (hperm.map _).trans ?_
  have hlen3 : (seq.map (·.taskId)).length = seq.length := List.length_map _ _
  generalize hgen : seq.map (·.taskId) = ids at hs hlen3 ⊢
  have h5 : ids.map (fun x => Int.ofNat (posOf x ids)) =
      (ids.map (fun x => posOf x ids)).map Int.ofNat := by
    rw [List.map_map]
    rfl
  rw [h5, map_posOf_eq_range _ hs, hlen3, hlen]

theorem members_map_orderAssign_untouched (ts seq : List TaskItem) (L : String)
    (h : ∀ u ∈ members ts L, u.taskId ∉ seq.map (·.taskId)) :
    members (ts.map (orderAssign seq 0)) L = members ts L := by
  rw [members_map_of_preserve _ _ _ (fun u => (orderAssign_fields seq 0 u).2.1)]
  apply map_eq_self
  intro u hum
  exact orderAssign_of_not_mem _ _ _ (h u hum)

/-! ### The cross-list listId reassignment -/

/-- The effect of `updated[draggedIdx].listId = targetListId` on a single
task of a collection with unique ids: the dragged record moves to the
target list, everything else is untouched. -/
def moveAssign (X : TaskItem) (tgt : String) (u : TaskItem) : TaskItem :=
  if u.taskId == X.taskId then { X with listId := tgt } else u

theorem moveAssign_taskId (X : TaskItem) (tgt : String) (u : TaskItem) :
    (moveAssign X tgt u).taskId = u.taskId := by
  unfold moveAssign
  by_cases h : u.taskId == X.taskId
  · simp only [h, if_pos]
    exact ((by simpa using h : u.taskId = X.taskId)).symm
  · simp [h]

theorem map_moveAssign_ids (X : TaskItem) (tgt : String) (ts : List TaskItem) :
    (ts.map (moveAssign X tgt)).map (·.taskId) = ts.map (·.taskId) := by
  rw [List.map_map]
  apply List.map_congr_left
  intro u _
  exact moveAssign_taskId X tgt u

theorem members_moveAssign_src (ts : List TaskItem) (X : TaskItem) (src tgt : String)
    (hu : UniqueIds ts) (hX : X ∈ ts) (hL : X.listId = src) (hst : src ≠ tgt) :
    members (ts.map (moveAssign X tgt)) src =
      (members ts src).filter (fun u => u.taskId != X.taskId) := by
  unfold members
  rw [filter_map_comm]
  have hpred : ts.filter (fun u => (moveAssign X tgt u).listId == src) =
      ts.filter (fun u => u.listId == src && u.taskId != X.taskId) := by
    apply List.filter_congr
    intro u hum
    by_cases h : u.taskId = X.taskId
    · have huX : u = X := uniqueIds_eq_of_taskId hu hum hX h
      subst huX
      simp [moveAssign, hst.symm, hL]
    · simp [moveAssign, h]
  rw [hpred]
  have hfilter : ts.filter (fun u => u.listId == src && u.taskId != X.taskId) =
      (ts.filter (fun u => u.listId == src)).filter (fun u => u.taskId != X.taskId) := by
    rw [List.filter_filter]
    apply List.filter_congr
    intro u _
    exact Bool.and_comm _ _
  rw [hfilter]
  apply map_eq_self
  intro u hum
  have h2 := (List.mem_filter.mp hum).2
  unfold moveAssign
  rw [if_neg (by simpa using h2)]

theorem members_moveAssign_tgt (ts : List TaskItem) (X : TaskItem) (src tgt : String)
    (hu : UniqueIds ts) (hX : X ∈ ts) (hL : X.listId = src) (hst : src ≠ tgt) :
    members (ts.map (moveAssign X tgt)) tgt =
      (ts.filter (fun u => u.taskId == X.taskId || u.listId == tgt)).map
        (moveAssign X tgt) := by
  unfold members
  rw [filter_map_comm]
  congr 1
  apply List.filter_congr
  intro u hum
  by_cases h : u.taskId = X.taskId
  · have huX : u = X := uniqueIds_eq_of_taskId hu hum hX h
    subst huX
    simp [moveAssign]
  · simp [moveAssign, h]

theorem members_moveAssign_other (ts : List TaskItem) (X : TaskItem) (src tgt L : String)
    (hu : UniqueIds ts) (hX : X ∈ ts) (hL : X.listId = src)
    (hLs : L ≠ src) (hLt : L ≠ tgt) :
    members (ts.map (moveAssign X tgt)) L = members ts L := by
  unfold members
  rw [filter_map_comm]
  have hpred : ts.filter (fun u => (moveAssign X tgt u).listId == L) =
      ts.filter (fun u => u.listId == L) := by
    apply List.filter_congr
    intro u hum
    by_cases h : u.taskId = X.taskId
    · have huX : u = X := uniqueIds_eq_of_taskId hu hum hX h
      subst huX
      unfold moveAssign
      rw [if_pos (by simp)]
      have hb1 : (({ u with listId := tgt } : TaskItem).listId == L) = false := by
        simp only [beq_eq_false_iff_ne]
        exact fun heq => hLt heq.symm
      have hb2 : (u.listId == L) = false := by
        simp only [beq_eq_false_iff_ne]
        intro heq
        exact hLs (by rw [← heq, hL])
      rw [hb1, hb2]
    · unfold moveAssign
      rw [if_neg (by simpa using h)]
  rw [hpred]
  apply map_eq_self
  intro u hum
  have h1 := List.mem_filter.mp hum
  have hulL : u.listId = L := by simpa using h1.2
  have h2 : u.taskId ≠ X.taskId := by
    intro heq
    have huX : u = X := uniqueIds_eq_of_taskId hu h1.1 hX heq
    apply hLs
    rw [← hulL, huX, hL]
  unfold moveAssign
  rw [if_neg (by simpa using h2)]

theorem filter_or_unique_perm (ts : List TaskItem) (X : TaskItem) (q : TaskItem → Bool)
    (hu : UniqueIds ts) (hX : X ∈ ts) (hq : ¬ q X = true) :
    List.Perm (ts.filter (fun u => u.taskId == X.taskId || q u)) (X :: ts.filter q) := by
  induction ts with
  | nil => cases hX
  | cons a l ih =>
    have hu1 : ((a :: l).map (·.taskId)).Nodup := hu
    rw [List.map_cons] at hu1
    rcases List.nodup_cons.mp hu1 with ⟨ha0, hl⟩
    by_cases ha : a.taskId = X.taskId
    · have haX : a = X := by
        rcases List.mem_cons.mp hX with rfl | h2
        · rfl
        · exact absurd (by rw [ha]; exact List.mem_map_of_mem _ h2) ha0
      subst haX
      rw [List.filter_cons, if_pos (by simp)]
      rw [List.filter_cons, if_neg hq]
      have hrest : l.filter (fun u => u.taskId == a.taskId || q u) = l.filter q := by
        apply List.filter_congr
        intro u hum
        have : u.taskId ≠ a.taskId := by
          intro heq
          exact ha0 (by rw [← heq]; exact List.mem_map_of_mem _ hum)
        simp [this]
      rw [hrest]
    · have hX2 : X ∈ l := by
        rcases List.mem_cons.mp hX with rfl | h2
        · exact absurd rfl ha
        · exact h2
      have hne : ¬(a.taskId == X.taskId) = true := by simpa using ha
      rw [List.filter_cons, List.filter_cons]
      by_cases hqa : q a
      · rw [if_pos (by simp [hne, hqa]), if_pos hqa]
        exact (List.Perm.cons a (ih hl hX2)).trans (List.Perm.swap X a _)
      · rw [if_neg (by simp [hne, hqa]), if_neg hqa]
        exact ih hl hX2

theorem getD_map_lt (f : TaskItem → TaskItem) (l : List TaskItem) (i : Nat) (d : TaskItem)
    (h : i < l.length) : (l.map f).getD i d = f (l.getD i d) := by
  induction l generalizing i with
  | nil => cases h
  | cons a l ih =>
    cases i with
    | zero => rfl
    | succ j =>
      have hj : j < l.length := Nat.lt_of_succ_lt_succ h
      simpa using ih j hj

theorem not_mem_ids_of_listId_ne (ts : List TaskItem) (hu : UniqueIds ts) (u : TaskItem)
    (hum : u ∈ ts) (L : String) (hne : u.listId ≠ L) :
    u.taskId ∉ (members ts L).map (·.taskId) := by
  intro hmem
  obtain ⟨v, hv, hveq⟩ := List.mem_map.mp hmem
  have hveq2 : v = u := uniqueIds_eq_of_taskId hu (mem_members.mp hv).1 hum hveq
  exact hne (by rw [← hveq2]; exact (mem_members.mp hv).2)

theorem mem_ids_sort_filter {x : String} {l : List TaskItem} {q : TaskItem → Bool}
    (hm : x ∈ (sortByOrder (l.filter q)).map (·.taskId)) :
    ∃ s ∈ l, q s = true ∧ s.taskId = x := by
  obtain ⟨s, hs, heq⟩ := List.mem_map.mp hm
  have hsf : s ∈ l.filter q := mem_sortByOrder.mp hs
  exact ⟨s, (List.mem_filter.mp hsf).1, (List.mem_filter.mp hsf).2, heq⟩

/-! ### Cross-list branch characterization -/

theorem commitDrop_cross_eq (ts : List TaskItem) (X : TaskItem) (src tgt : String) (t : Int)
    (hu : UniqueIds ts) (hX : X ∈ ts) (hL : X.listId = src) (hst : src ≠ tgt) :
    commitDrop X.taskId src tgt t ts =
      some (((ts.map (moveAssign X tgt)).map
          (orderAssign (sortByOrder ((members ts src).filter
            (fun u => u.taskId != X.taskId))) 0)).map
        (orderAssign (spliceInsert (sortByOrder (members ts tgt)) t
          { X with listId := tgt }) 0)) := by
  obtain ⟨i, hfi, hilt, hgetD, hset⟩ := findIndex_spec ts X hu hX
  have hXtgt : X.listId ≠ tgt := by rw [hL]; exact hst
  -- X's id is not among the target list's member ids
  have hXnotgt : X.taskId ∉ (members ts tgt).map (·.taskId) :=
    not_mem_ids_of_listId_ne ts hu X hX tgt hXtgt
  -- abbreviations
  have hset2 : ts.set i { X with listId := tgt } = ts.map (moveAssign X tgt) := by
    unfold moveAssign
    exact hset _
  have hids1 : (ts.map (moveAssign X tgt)).map (·.taskId) = ts.map (·.taskId) :=
    map_moveAssign_ids X tgt ts
  -- the source re-index sequence
  have hseqS : ((sortByOrder ((members ts src).filter
      (fun u => u.taskId != X.taskId))).map (·.taskId)).Nodup :=
    sortByOrder_ids_nodup _
      (List.Nodup.sublist ((List.filter_sublist _).map _) (uniqueIds_members ts hu src))
  have hseqS_noX : X.taskId ∉ (sortByOrder ((members ts src).filter
      (fun u => u.taskId != X.taskId))).map (·.taskId) := by
    intro hm
    obtain ⟨s, _, hq, heq⟩ := mem_ids_sort_filter hm
    exact (by simpa using hq : s.taskId ≠ X.taskId) heq
  unfold commitDrop
  rw [if_neg (by simpa using hst)]
  dsimp only
  rw [hfi]
  dsimp only
  rw [hgetD, hset2]
  -- the filtered source list of the moved collection
  have hmem1 : (ts.map (moveAssign X tgt)).filter (fun u => u.listId == src) =
      (members ts src).filter (fun u => u.taskId != X.taskId) :=
    members_moveAssign_src ts X src tgt hu hX hL hst
  rw [hmem1]
  -- first writeOrders pass
  rw [writeOrders_eq_map _ 0 _ (by rw [hids1]; exact hu) hseqS ?side1]
  case side1 =>
    intro s hs
    obtain ⟨v, hv, hq, heq⟩ := mem_ids_sort_filter (List.mem_map_of_mem (·.taskId) hs)
    rw [hids1, ← heq]
    exact List.mem_map_of_mem _ (mem_members.mp hv).1
  rw [Option.some_bind]
  -- name the intermediate collections
  set seqS := sortByOrder ((members ts src).filter (fun u => u.taskId != X.taskId)) with hseqSdef
  set M1 := ts.map (moveAssign X tgt) with hM1
  set M2 := M1.map (orderAssign seqS 0) with hM2
  have hids2 : M2.map (·.taskId) = ts.map (·.taskId) := by
    rw [hM2, List.map_map]
    have : ((fun x => x.taskId) ∘ orderAssign seqS 0) = fun u : TaskItem => u.taskId := by
      funext u
      exact (orderAssign_fields seqS 0 u).1
    rw [this, hids1]
  -- the dragged record after the first pass
  have hdragged : M2.getD i default = { X with listId := tgt } := by
    rw [hM2, getD_map_lt _ _ _ _ (by rw [hM1, List.length_map]; exact hilt),
      hM1, getD_map_lt _ _ _ _ hilt, hgetD]
    have hmv : moveAssign X tgt X = { X with listId := tgt } := by
      unfold moveAssign
      rw [if_pos (by simp)]
    rw [hmv]
    apply orderAssign_of_not_mem
    exact hseqS_noX
  rw [hdragged]
  -- the target list of the doubly-mapped collection
  have htargetAll : M2.filter (fun u => u.listId == tgt) =
      ((ts.filter (fun u => u.taskId == X.taskId || u.listId == tgt)).map
        (moveAssign X tgt)).map (orderAssign seqS 0) := by
    rw [hM2]
    have h1 : members (M1.map (orderAssign seqS 0)) tgt =
        (members M1 tgt).map (orderAssign seqS 0) :=
      members_map_of_preserve _ _ _ (fun u => (orderAssign_fields seqS 0 u).2.1)
    have h2 : members M1 tgt =
        (ts.filter (fun u => u.taskId == X.taskId || u.listId == tgt)).map
          (moveAssign X tgt) :=
      members_moveAssign_tgt ts X src tgt hu hX hL hst
    have h3 : members (M1.map (orderAssign seqS 0)) tgt =
        (M1.map (orderAssign seqS 0)).filter (fun u => u.listId == tgt) := rfl
    rw [← h3, h1, h2]
  rw [htargetAll]
  -- dropping the dragged record from the target recovers the original members
  have hwithout : (sortByOrder (((ts.filter
        (fun u => u.taskId == X.taskId || u.listId == tgt)).map
        (moveAssign X tgt)).map (orderAssign seqS 0))).filter
        (fun u => u.taskId != X.taskId) =
      sortByOrder (members ts tgt) := by
    rw [← sortByOrder_filter]
    congr 1
    rw [filter_map_comm, filter_map_comm]
    have hp1 : (ts.filter (fun u => u.taskId == X.taskId || u.listId == tgt)).filter
        (fun a => (orderAssign seqS 0 (moveAssign X tgt a)).taskId != X.taskId) =
        members ts tgt := by
      have hcomb : (ts.filter (fun u => u.taskId == X.taskId || u.listId == tgt)).filter
          (fun a => (orderAssign seqS 0 (moveAssign X tgt a)).taskId != X.taskId) =
          ts.filter (fun u => u.listId == tgt) := by
        rw [List.filter_filter]
        apply List.filter_congr
        intro u hum
        rw [(orderAssign_fields seqS 0 (moveAssign X tgt u)).1, moveAssign_taskId]
        by_cases h : u.taskId = X.taskId
        · have huX : u = X := uniqueIds_eq_of_taskId hu hum hX h
          subst huX
          have h1 : (u.taskId != u.taskId) = false := by simp
          have h2 : (u.listId == tgt) = false := by
            simp only [beq_eq_false_iff_ne]
            exact hXtgt
          rw [h1, h2, Bool.false_and]
        · have h1 : (u.taskId != X.taskId) = true := by simpa using h
          have h2 : (u.taskId == X.taskId) = false := by
            simp only [beq_eq_false_iff_ne]
            exact h
          rw [h1, h2, Bool.true_and, Bool.false_or]
      exact hcomb
    rw [hp1]
    have hid2 : ∀ u ∈ members ts tgt, orderAssign seqS 0 (moveAssign X tgt u) = u := by
      intro u hum
      have humem := mem_members.mp hum
      have hune : u.taskId ≠ X.taskId := by
        intro heq
        have huX : u = X := uniqueIds_eq_of_taskId hu humem.1 hX heq
        exact hXtgt (huX ▸ humem.2)
      have hmv : moveAssign X tgt u = u := by
        unfold moveAssign
        rw [if_neg (by simpa using hune)]
      rw [hmv]
      apply orderAssign_of_not_mem
      intro hm
      obtain ⟨s, hsm, hq, heq⟩ := mem_ids_sort_filter hm
      have hsu : s = u := uniqueIds_eq_of_taskId hu (mem_members.mp hsm).1 humem.1 heq
      have : u.listId = src := by rw [← hsu]; exact (mem_members.mp hsm).2
      rw [humem.2] at this
      exact hst this.symm
    rw [List.map_map]
    exact map_eq_self _ _ hid2
  rw [hwithout]
  -- final writeOrders pass
  have hseqT : ((spliceInsert (sortByOrder (members ts tgt)) t
      { X with listId := tgt }).map (·.taskId)).Nodup := by
    have hperm := (spliceInsert_perm (sortByOrder (members ts tgt)) t
      { X with listId := tgt }).map (·.taskId)
    rw [hperm.nodup_iff]
    rw [List.map_cons]
    apply List.nodup_cons.mpr
    constructor
    · have hXid : ({ X with listId := tgt } : TaskItem).taskId = X.taskId := rfl
      rw [hXid]
      intro hm
      obtain ⟨s, hsm, heq⟩ := List.mem_map.mp hm
      exact hXnotgt (by rw [← heq]; exact List.mem_map_of_mem _ (mem_sortByOrder.mp hsm))
    · exact sortByOrder_ids_nodup _ (uniqueIds_members ts hu tgt)
  rw [writeOrders_eq_map _ 0 _ (by rw [hids2]; exact hu) hseqT ?side2]
  case side2 =>
    intro s hs
    rw [hids2]
    have hsmem := (spliceInsert_perm _ t _).mem_iff.mp hs
    rcases List.mem_cons.mp hsmem with rfl | hsm
    · show X.taskId ∈ ts.map (·.taskId)
      exact List.mem_map_of_mem _ hX
    · exact List.mem_map_of_mem _ (mem_members.mp (mem_sortByOrder.mp hsm)).1

/-! ### Density assembly helpers -/

theorem members_ids_disjoint (ts : List TaskItem) (hu : UniqueIds ts) (L1 L2 : String)
    (hne : L1 ≠ L2) (x : String) (h1 : x ∈ (members ts L1).map (·.taskId)) :
    x ∉ (members ts L2).map (·.taskId) := by
  intro h2
  obtain ⟨u, hu1, he1⟩ := List.mem_map.mp h1
  obtain ⟨v, hv1, he2⟩ := List.mem_map.mp h2
  have huv : u = v := uniqueIds_eq_of_taskId hu (mem_members.mp hu1).1 (mem_members.mp hv1).1
    (by rw [he1, he2])
  apply hne
  rw [← (mem_members.mp hu1).2, huv]
  exact (mem_members.mp hv1).2

theorem sameSeq_ids_perm (ts : List TaskItem) (X : TaskItem) (src : String) (t : Int)
    (hu : UniqueIds ts) (hX : X ∈ ts) (hL : X.listId = src) :
    List.Perm ((members ts src).map (·.taskId))
      ((spliceInsert ((sortByOrder (members ts src)).filter
        (fun u => u.taskId != X.taskId)) t X).map (·.taskId)) := by
  have hids : ((sortByOrder (members ts src)).map (·.taskId)).Nodup :=
    sortByOrder_ids_nodup _ (uniqueIds_members ts hu src)
  have hXs : X ∈ sortByOrder (members ts src) :=
    mem_sortByOrder.mpr (mem_members.mpr ⟨hX, hL⟩)
  have hperm1 : List.Perm
      (spliceInsert ((sortByOrder (members ts src)).filter
        (fun u => u.taskId != X.taskId)) t X)
      (sortByOrder (members ts src)) :=
    (spliceInsert_perm _ t X).trans (filter_ne_perm _ X hids hXs)
  exact (((sortK_perm _ (members ts src)).map (·.taskId)).symm).trans
    ((hperm1.map (·.taskId)).symm)

/-- C1, same-list branch: all lists stay dense. -/
theorem commitDrop_same_dense (ts : List TaskItem) (X : TaskItem) (src : String) (t : Int)
    (hu : UniqueIds ts) (hdense : ∀ L, DenseList (members ts L))
    (hX : X ∈ ts) (hL : X.listId = src) (L : String) :
    DenseList (members (ts.map (orderAssign
      (spliceInsert ((sortByOrder (members ts src)).filter
        (fun u => u.taskId != X.taskId)) t X) 0)) L) := by
  have hpermS := sameSeq_ids_perm ts X src t hu hX hL
  have hseqNodup : ((spliceInsert ((sortByOrder (members ts src)).filter
      (fun u => u.taskId != X.taskId)) t X).map (·.taskId)).Nodup :=
    (hpermS.nodup_iff).mp (uniqueIds_members ts hu src)
  by_cases hLs : L = src
  · subst hLs
    rw [members_map_of_preserve _ _ _ (fun u => (orderAssign_fields _ 0 u).2.1)]
    exact denseList_map_orderAssign _ _ hseqNodup hpermS
  · rw [members_map_orderAssign_untouched]
    · exact hdense L
    · intro u hum hmem
      have hmem2 : u.taskId ∈ (members ts src).map (·.taskId) := hpermS.mem_iff.mpr hmem
      exact members_ids_disjoint ts hu L src hLs u.taskId
        (List.mem_map_of_mem _ hum) hmem2

/-- C1, cross-list branch: all lists stay dense. -/
theorem commitDrop_cross_dense (ts : List TaskItem) (X : TaskItem) (src tgt : String)
    (t : Int) (hu : UniqueIds ts) (hdense : ∀ L, DenseList (members ts L))
    (hX : X ∈ ts) (hL : X.listId = src) (hst : src ≠ tgt) (L : String) :
    DenseList (members (((ts.map (moveAssign X tgt)).map
        (orderAssign (sortByOrder ((members ts src).filter
          (fun u => u.taskId != X.taskId))) 0)).map
      (orderAssign (spliceInsert (sortByOrder (members ts tgt)) t
        { X with listId := tgt }) 0)) L) := by
  set seqS := sortByOrder ((members ts src).filter (fun u => u.taskId != X.taskId))
    with hseqSdef
  set seqT := spliceInsert (sortByOrder (members ts tgt)) t { X with listId := tgt }
    with hseqTdef
  set M1 := ts.map (moveAssign X tgt) with hM1def
  set M2 := M1.map (orderAssign seqS 0) with hM2def
  have hXtgt : X.listId ≠ tgt := by rw [hL]; exact hst
  have hXnotgt : X.taskId ∉ (members ts tgt).map (·.taskId) :=
    not_mem_ids_of_listId_ne ts hu X hX tgt hXtgt
  have htgtNodup : ((members ts tgt).map (·.taskId)).Nodup := uniqueIds_members ts hu tgt
  have hseqSNodup : (seqS.map (·.taskId)).Nodup :=
    sortByOrder_ids_nodup _
      (List.Nodup.sublist ((List.filter_sublist _).map _) (uniqueIds_members ts hu src))
  have hseqS_sub : ∀ x, x ∈ seqS.map (·.taskId) →
      x ∈ (members ts src).map (·.taskId) ∧ x ≠ X.taskId := by
    intro x hx
    obtain ⟨v, hv, hq, heq⟩ := mem_ids_sort_filter hx
    refine ⟨by rw [← heq]; exact List.mem_map_of_mem _ hv, ?_⟩
    rw [← heq]
    simpa using hq
  -- the ids of the target insertion sequence
  have hseqTperm : List.Perm (seqT.map (·.taskId))
      (X.taskId :: (members ts tgt).map (·.taskId)) := by
    refine ((spliceInsert_perm _ t _).map _).trans ?_
    simp only [List.map_cons]
    exact List.Perm.cons _ ((sortK_perm _ _).map _)
  have hseqTnodup : (seqT.map (·.taskId)).Nodup :=
    hseqTperm.nodup_iff.mpr (List.nodup_cons.mpr ⟨hXnotgt, htgtNodup⟩)
  -- the target members of the doubly-mapped collection
  have hM2tgt : members M2 tgt = ((ts.filter
      (fun u => u.taskId == X.taskId || u.listId == tgt)).map
        (moveAssign X tgt)).map (orderAssign seqS 0) := by
    rw [hM2def, members_map_of_preserve _ _ _ (fun u => (orderAssign_fields seqS 0 u).2.1),
      hM1def, members_moveAssign_tgt ts X src tgt hu hX hL hst]
  have hM2tgt_ids : (members M2 tgt).map (·.taskId) =
      (ts.filter (fun u => u.taskId == X.taskId || u.listId == tgt)).map (·.taskId) := by
    rw [hM2tgt, List.map_map, List.map_map]
    apply List.map_congr_left
    intro u _
    show (orderAssign seqS 0 (moveAssign X tgt u)).taskId = u.taskId
    rw [(orderAssign_fields seqS 0 (moveAssign X tgt u)).1, moveAssign_taskId]
  have hfilterperm : List.Perm
      (ts.filter (fun u => u.taskId == X.taskId || u.listId == tgt))
      (X :: ts.filter (fun u => u.listId == tgt)) :=
    filter_or_unique_perm ts X _ hu hX (by simpa using hXtgt)
  have hM2tgtperm : List.Perm ((members M2 tgt).map (·.taskId))
      (X.taskId :: (members ts tgt).map (·.taskId)) := by
    rw [hM2tgt_ids]
    have h2 := hfilterperm.map (·.taskId)
    simpa using h2
  by_cases hLt : L = tgt
  · subst hLt
    rw [members_map_of_preserve _ _ _ (fun u => (orderAssign_fields seqT 0 u).2.1)]
    exact denseList_map_orderAssign _ _ hseqTnodup (hM2tgtperm.trans hseqTperm.symm)
  by_cases hLs : L = src
  · rw [hLs]
    have hM2src : members M2 src = ((members ts src).filter
        (fun u => u.taskId != X.taskId)).map (orderAssign seqS 0) := by
      rw [hM2def, members_map_of_preserve _ _ _ (fun u => (orderAssign_fields seqS 0 u).2.1),
        hM1def, members_moveAssign_src ts X src tgt hu hX hL hst]
    rw [members_map_orderAssign_untouched]
    · rw [hM2src]
      apply denseList_map_orderAssign _ _ hseqSNodup
      rw [hseqSdef]
      have hp : List.Perm
          (((members ts src).filter (fun u => u.taskId != X.taskId)).map
            (fun u => u.taskId))
          ((sortByOrder ((members ts src).filter (fun u => u.taskId != X.taskId))).map
            (fun u => u.taskId)) :=
        ((sortK_perm (fun u : TaskItem => u.order)
          ((members ts src).filter (fun u => u.taskId != X.taskId))).map
            (fun u : TaskItem => u.taskId)).symm
      exact hp
    · intro u hum hmem
      have huid : u.taskId ∈ (members M2 src).map (·.taskId) := List.mem_map_of_mem _ hum
      rw [hM2src, List.map_map] at huid
      have huid2 : u.taskId ∈ ((members ts src).filter
          (fun v => v.taskId != X.taskId)).map (·.taskId) := by
        have hcomp : ((fun x => x.taskId) ∘ orderAssign seqS 0) =
            fun v : TaskItem => v.taskId := by
          funext v
          exact (orderAssign_fields seqS 0 v).1
        rw [hcomp] at huid
        exact huid
      obtain ⟨v, hvf, hveq⟩ := List.mem_map.mp huid2
      have hvmem := List.mem_filter.mp hvf
      rcases List.mem_cons.mp (hseqTperm.mem_iff.mp hmem) with heq | hmem2
      · exact (by simpa using hvmem.2 : v.taskId ≠ X.taskId) (by rw [hveq, heq])
      · exact members_ids_disjoint ts hu src tgt hst u.taskId
          (by rw [← hveq]; exact List.mem_map_of_mem _ hvmem.1) hmem2
  · -- L is neither src nor tgt: untouched twice
    have hM1L : members M1 L = members ts L := by
      rw [hM1def]
      exact members_moveAssign_other ts X src tgt L hu hX hL hLs hLt
    have hdisj : ∀ u, u ∈ (members ts L).map (·.taskId) → u ∉ seqT.map (·.taskId) := by
      intro x hx hmem
      rcases List.mem_cons.mp (hseqTperm.mem_iff.mp hmem) with heq | hmem2
      · have hXsrc : X.taskId ∈ (members ts src).map (·.taskId) :=
          List.mem_map_of_mem _ (mem_members.mpr ⟨hX, hL⟩)
        exact members_ids_disjoint ts hu L src hLs x hx (by rw [heq]; exact hXsrc)
      · exact members_ids_disjoint ts hu L tgt hLt x hx hmem2
    have hM2L : members M2 L = members ts L := by
      rw [hM2def, members_map_orderAssign_untouched]
      · exact hM1L
      · intro u hum hmem
        rw [hM1L] at hum
        have := hseqS_sub u.taskId hmem
        exact members_ids_disjoint ts hu L src hLs u.taskId
          (List.mem_map_of_mem _ hum) this.1
    rw [members_map_orderAssign_untouched]
    · rw [hM2L]
      exact hdense L
    · intro u hum hmem
      rw [hM2L] at hum
      exact hdisj u.taskId (List.mem_map_of_mem _ hum) hmem

theorem denseAll_of_listIds (ts : List TaskItem)
    (h : ∀ L ∈ ts.map (·.listId), DenseList (members ts L)) :
    ∀ L, DenseList (members ts L) := by
  intro L
  by_cases hL : L ∈ ts.map (·.listId)
  · exact h L hL
  · have hnil : members ts L = [] := by
      unfold members
      rw [List.filter_eq_nil_iff]
      intro u hum
      simp only [beq_iff_eq]
      intro heq
      exact hL (by rw [← heq]; exact List.mem_map_of_mem _ hum)
    unfold DenseList
    rw [hnil]
    exact List.Perm.refl _

/-- C1: starting from a collection keyed by unique task ids in which every
list's order values form a dense 0..n-1 permutation, any commit whose
dragged item is a member of the collection with `listId = sourceListId`
and whose `targetIndex` is non-negative succeeds, and in the resulting
collection the order values of every list are exactly `{0, ..., k-1}`
(`k` the number of members), with no gaps and no duplicates. -/
theorem C1_commit_preserves_density (ts : List TaskItem) (X : TaskItem)
    (src tgt : String) (t : Int) (hsettled : Settled ts) (hX : X ∈ ts)
    (hL : X.listId = src) (ht : 0 ≤ t) :
    ∃ ts2, commitDrop X.taskId src tgt t ts = some ts2 ∧
      ∀ L, DenseList (members ts2 L) := by
  obtain ⟨hu, hdense⟩ := hsettled
  by_cases hst : src = tgt
  · subst hst
    exact ⟨_, commitDrop_same_eq ts X src t hu hX hL,
      fun L => commitDrop_same_dense ts X src t hu hdense hX hL L⟩
  · exact ⟨_, commitDrop_cross_eq ts X src tgt t hu hX hL hst,
      fun L => commitDrop_cross_dense ts X src tgt t hu hdense hX hL hst L⟩

/-- Witness for C1 at a concrete settled collection. -/
theorem C1_commit_preserves_density_witness :
    ∃ ts2, commitDrop "b" "A" "B" 1
        [⟨"a", "A", 0, "", ""⟩, ⟨"b", "A", 1, "", ""⟩, ⟨"c", "B", 0, "", ""⟩] =
        some ts2 ∧ ∀ L, DenseList (members ts2 L) :=
  C1_commit_preserves_density
    [⟨"a", "A", 0, "", ""⟩, ⟨"b", "A", 1, "", ""⟩, ⟨"c", "B", 0, "", ""⟩]
    ⟨"b", "A", 1, "", ""⟩ "A" "B" 1
    ⟨by decide, denseAll_of_listIds _ (by decide)⟩ (by decide) rfl (by decide)

/-! ### The no-op same-list reorder -/

theorem filter_ne_eq_take_drop (l : List TaskItem) (j : Nat) (hj : j < l.length)
    (hn : (l.map (·.taskId)).Nodup) :
    l.filter (fun u => u.taskId != l[j].taskId) = l.take j ++ l.drop (j + 1) := by
  induction l generalizing j with
  | nil => cases hj
  | cons a l ih =>
    rw [List.map_cons] at hn
    rcases List.nodup_cons.mp hn with ⟨ha0, hl⟩
    cases j with
    | zero =>
      simp only [List.getElem_cons_zero, List.take_zero, List.drop_succ_cons,
        List.drop_zero, List.nil_append]
      rw [List.filter_cons, if_neg (by simp)]
      apply filter_eq_self_of_forall
      intro u hum
      have hne : u.taskId ≠ a.taskId := fun heq => ha0 (heq ▸ List.mem_map_of_mem _ hum)
      simpa using hne
    | succ k =>
      have hk : k < l.length := Nat.lt_of_succ_lt_succ hj
      simp only [List.getElem_cons_succ, List.take_succ_cons, List.drop_succ_cons,
        List.cons_append]
      have hm : l[k] ∈ l := List.getElem_mem hk
      have hne : a.taskId ≠ l[k].taskId := fun heq => ha0 (heq ▸ List.mem_map_of_mem _ hm)
      rw [List.filter_cons, if_pos (by simpa using hne)]
      rw [ih k hk hl]

theorem sortByOrder_getElem_order (m : List TaskItem) (hd : DenseList m) (j : Nat)
    (hj : j < (sortByOrder m).length) :
    (sortByOrder m)[j].order = Int.ofNat j := by
  have hlen : (sortByOrder m).length = m.length := (sortK_perm _ m).length_eq
  have hj2 : j < ((sortByOrder m).map (·.order)).length := by
    rw [List.length_map]
    exact hj
  have h1 := sortByOrder_map_order m hd
  have hj3 : j < ((List.range m.length).map Int.ofNat).length := by
    rw [List.length_map, List.length_range, ← hlen]
    exact hj
  calc (sortByOrder m)[j].order
      = ((sortByOrder m).map (·.order))[j] := by simp
    _ = ((List.range m.length).map Int.ofNat)[j] := List.getElem_of_eq h1 hj2
    _ = Int.ofNat j := by simp

/-- C7: in a settled collection, committing a same-list move of an item to
its own current slot returns the collection unchanged: every member of
every list keeps its order value (and all other fields). -/
theorem C7_noop_reorder (ts : List TaskItem) (X : TaskItem) (L : String)
    (hsettled : Settled ts) (hX : X ∈ ts) (hL : X.listId = L) :
    commitDrop X.taskId L L X.order ts = some ts := by
  obtain ⟨hu, hdense⟩ := hsettled
  rw [commitDrop_same_eq ts X L X.order hu hX hL]
  have hids : ((sortByOrder (members ts L)).map (·.taskId)).Nodup :=
    sortByOrder_ids_nodup _ (uniqueIds_members ts hu L)
  have hXs : X ∈ sortByOrder (members ts L) :=
    mem_sortByOrder.mpr (mem_members.mpr ⟨hX, hL⟩)
  obtain ⟨⟨j, hj⟩, hXj⟩ := List.mem_iff_get.mp hXs
  rw [List.get_eq_getElem] at hXj
  have hXord : X.order = Int.ofNat j := by
    rw [← hXj]
    exact sortByOrder_getElem_order (members ts L) (hdense L) j hj
  have hrest : (sortByOrder (members ts L)).filter (fun u => u.taskId != X.taskId) =
      (sortByOrder (members ts L)).take j ++ (sortByOrder (members ts L)).drop (j + 1) := by
    rw [← hXj]
    exact filter_ne_eq_take_drop _ j hj hids
  have htakelen : ((sortByOrder (members ts L)).take j).length = j := by
    rw [List.length_take]
    omega
  have hsplice : spliceInsert ((sortByOrder (members ts L)).filter
      (fun u => u.taskId != X.taskId)) X.order X = sortByOrder (members ts L) := by
    rw [hrest, hXord]
    unfold spliceInsert spliceStart
    rw [if_neg (by exact Int.not_lt.mpr (Int.ofNat_nonneg j))]
    have hlen2 : ((sortByOrder (members ts L)).take j ++
        (sortByOrder (members ts L)).drop (j + 1)).length =
        (sortByOrder (members ts L)).length - 1 := by
      rw [List.length_append, htakelen, List.length_drop]
      omega
    have hstart : min (Int.ofNat j).toNat (((sortByOrder (members ts L)).take j ++
        (sortByOrder (members ts L)).drop (j + 1)).length) = j := by
      have htn : (Int.ofNat j).toNat = j := rfl
      rw [htn, hlen2]
      omega
    rw [hstart, List.take_left' htakelen, List.drop_left' htakelen]
    rw [← hXj, ← List.drop_eq_getElem_cons hj, List.take_append_drop]
  rw [hsplice]
  have hassign : ts.map (orderAssign (sortByOrder (members ts L)) 0) = ts := by
    apply map_eq_self
    intro u hum
    by_cases huL : u.listId = L
    · have humem : u ∈ sortByOrder (members ts L) :=
        mem_sortByOrder.mpr (mem_members.mpr ⟨hum, huL⟩)
      obtain ⟨⟨p, hp⟩, hup⟩ := List.mem_iff_get.mp humem
      rw [List.get_eq_getElem] at hup
      have hidmem : u.taskId ∈ (sortByOrder (members ts L)).map (·.taskId) :=
        List.mem_map_of_mem _ humem
      rw [orderAssign_of_mem _ _ _ hidmem]
      have hp2 : p < ((sortByOrder (members ts L)).map (·.taskId)).length := by
        rw [List.length_map]
        exact hp
      have hgetp : ((sortByOrder (members ts L)).map (·.taskId))[p] = u.taskId := by
        rw [List.getElem_map, hup]
      have hpos : posOf u.taskId ((sortByOrder (members ts L)).map (·.taskId)) = p := by
        rw [← hgetp]
        exact posOf_getElem _ p hp2 hids
      have hord : u.order = Int.ofNat p := by
        rw [← hup]
        exact sortByOrder_getElem_order (members ts L) (hdense L) p hp
      rw [hpos]
      have hfin : Int.ofNat (0 + p) = u.order := by
        rw [Nat.zero_add]
        exact hord.symm
      rw [hfin]
    · rw [orderAssign_of_not_mem]
      intro hmem
      have hmem2 : u.taskId ∈ (members ts L).map (·.taskId) :=
        (((sortK_perm (fun v : TaskItem => v.order) (members ts L)).map
          (fun v : TaskItem => v.taskId)).mem_iff).mp hmem
      exact not_mem_ids_of_listId_ne ts hu u hum L huL hmem2
  rw [hassign]

/-- Witness for C7 at a concrete settled collection. -/
theorem C7_noop_reorder_witness :
    commitDrop "b" "A" "A" 1
      [⟨"a", "A", 0, "", ""⟩, ⟨"b", "A", 1, "", ""⟩, ⟨"c", "B", 0, "", ""⟩] =
      some [⟨"a", "A", 0, "", ""⟩, ⟨"b", "A", 1, "", ""⟩, ⟨"c", "B", 0, "", ""⟩] :=
  C7_noop_reorder
    [⟨"a", "A", 0, "", ""⟩, ⟨"b", "A", 1, "", ""⟩, ⟨"c", "B", 0, "", ""⟩]
    ⟨"b", "A", 1, "", ""⟩ "A"
    ⟨by decide, denseAll_of_listIds _ (by decide)⟩ (by decide) rfl

/-! ### Frame property of commit -/

/-- C10 counterexample: with an itemId that is merely present in the
collection (in list "C") but not a member of the sourceListId "A", the
cross-list branch still reassigns its listId: the task whose listId is
neither sourceListId nor targetListId is NOT returned unchanged. -/
theorem C10_frame_counterexample :
    commitDrop "x" "A" "B" 0 [⟨"x", "C", 0, "t", ""⟩] =
      some [⟨"x", "B", 0, "t", ""⟩] ∧
    ([(⟨"x", "C", 0, "t", ""⟩ : TaskItem)])[0]? = some ⟨"x", "C", 0, "t", ""⟩ ∧
    ("C" : String) ≠ "A" ∧ ("C" : String) ≠ "B" ∧
    (⟨"x", "B", 0, "t", ""⟩ : TaskItem) ≠ ⟨"x", "C", 0, "t", ""⟩ := by decide

/-- C10 amended: when the dragged item is a member of the collection with
`listId = sourceListId` (and ids are unique), every task at a position
whose listId is neither sourceListId nor targetListId is returned
unchanged at the same position — same listId, order, title and
description. -/
theorem C10_frame_amended (ts : List TaskItem) (X : TaskItem) (src tgt : String) (t : Int)
    (hu : UniqueIds ts) (hX : X ∈ ts) (hL : X.listId = src) :
    ∃ ts2, commitDrop X.taskId src tgt t ts = some ts2 ∧
      ∀ (i : Nat) (u : TaskItem), ts[i]? = some u → u.listId ≠ src → u.listId ≠ tgt →
        ts2[i]? = some u := by
  by_cases hst : src = tgt
  · subst hst
    refine ⟨_, commitDrop_same_eq ts X src t hu hX hL, ?_⟩
    intro i u hiu hus _
    rw [List.getElem?_map, hiu]
    simp only [Option.map]
    have hum : u ∈ ts := by
      have := List.getElem?_mem hiu
      exact this
    congr 1
    apply orderAssign_of_not_mem
    intro hmem
    have hmem2 : u.taskId ∈ (members ts src).map (·.taskId) :=
      (sameSeq_ids_perm ts X src t hu hX hL).mem_iff.mpr hmem
    exact not_mem_ids_of_listId_ne ts hu u hum src hus hmem2
  · refine ⟨_, commitDrop_cross_eq ts X src tgt t hu hX hL hst, ?_⟩
    intro i u hiu hus hut
    rw [List.getElem?_map, List.getElem?_map, List.getElem?_map, hiu]
    simp only [Option.map]
    have hum : u ∈ ts := List.getElem?_mem hiu
    have huX : u.taskId ≠ X.taskId := by
      intro heq
      exact hus ((uniqueIds_eq_of_taskId hu hum hX heq) ▸ hL)
    have hmv : moveAssign X tgt u = u := by
      unfold moveAssign
      rw [if_neg (by simpa using huX)]
    rw [hmv]
    have hoS : orderAssign (sortByOrder ((members ts src).filter
        (fun v => v.taskId != X.taskId))) 0 u = u := by
      apply orderAssign_of_not_mem
      intro hmem
      obtain ⟨v, hv, _, heq⟩ := mem_ids_sort_filter hmem
      exact not_mem_ids_of_listId_ne ts hu u hum src hus
        (by rw [← heq]; exact List.mem_map_of_mem _ hv)
    rw [hoS]
    congr 1
    apply orderAssign_of_not_mem
    intro hmem
    have hperm : List.Perm ((spliceInsert (sortByOrder (members ts tgt)) t
        { X with listId := tgt }).map (·.taskId))
        (X.taskId :: (members ts tgt).map (·.taskId)) := by
      refine ((spliceInsert_perm _ t _).map _).trans ?_
      simp only [List.map_cons]
      exact List.Perm.cons _ ((sortK_perm _ _).map _)
    rcases List.mem_cons.mp (hperm.mem_iff.mp hmem) with heq | hmem2
    · exact huX heq
    · exact not_mem_ids_of_listId_ne ts hu u hum tgt hut hmem2

/-- Witness for the amended C10 at a concrete collection. -/
theorem C10_frame_amended_witness :
    ∃ ts2, commitDrop "a" "A" "B" 0
        [⟨"a", "A", 0, "", ""⟩, ⟨"b", "B", 0, "", ""⟩, ⟨"c", "C", 0, "", ""⟩] =
        some ts2 ∧
      ∀ (i : Nat) (u : TaskItem),
        ([⟨"a", "A", 0, "", ""⟩, ⟨"b", "B", 0, "", ""⟩,
          ⟨"c", "C", 0, "", ""⟩] : List TaskItem)[i]? = some u →
        u.listId ≠ "A" → u.listId ≠ "B" → ts2[i]? = some u :=
  C10_frame_amended
    [⟨"a", "A", 0, "", ""⟩, ⟨"b", "B", 0, "", ""⟩, ⟨"c", "C", 0, "", ""⟩]
    ⟨"a", "A", 0, "", ""⟩ "A" "B" 0 (by decide) (by decide) rfl

/-! ### Index normalization (JavaScript splice semantics) -/

theorem spliceStart_of_ge (t : Int) (n : Nat) (h : (n : Int) ≤ t) : spliceStart t n = n := by
  unfold spliceStart
  rw [if_neg (by omega)]
  omega

theorem spliceStart_neg (t : Int) (n : Nat) (h : t < 0) :
    spliceStart t n = ((n : Int) + t).toNat := by
  unfold spliceStart
  rw [if_pos h]

theorem spliceStart_ofNat (k n : Nat) : spliceStart (Int.ofNat k) n = min k n := by
  unfold spliceStart
  have hnn : ¬ Int.ofNat k < 0 := by
    simp only [Int.ofNat_eq_natCast]
    omega
  rw [if_neg hnn]
  rfl

theorem spliceInsert_eq_of_start (xs : List α) (t1 t2 : Int) (x : α)
    (h : spliceStart t1 xs.length = spliceStart t2 xs.length) :
    spliceInsert xs t1 x = spliceInsert xs t2 x := by
  unfold spliceInsert
  rw [h]

theorem length_filter_ne (ts : List TaskItem) (X : TaskItem) (src : String)
    (hu : UniqueIds ts) (hX : X ∈ ts) (hL : X.listId = src) :
    ((sortByOrder (members ts src)).filter (fun u => u.taskId != X.taskId)).length =
      (members ts src).length - 1 := by
  have hids := sortByOrder_ids_nodup _ (uniqueIds_members ts hu src)
  have hXs : X ∈ sortByOrder (members ts src) :=
    mem_sortByOrder.mpr (mem_members.mpr ⟨hX, hL⟩)
  have hperm := (filter_ne_perm _ X hids hXs).length_eq
  have hslen : (sortByOrder (members ts src)).length = (members ts src).length :=
    (sortK_perm _ _).length_eq
  simp only [List.length_cons] at hperm
  omega

/-- C2 counterexample: a negative targetIndex does NOT behave like
targetIndex 0 — JavaScript splice counts a negative start from the end of
the array, so commit(b, A, A, -1) re-inserts b before the last element
while commit(b, A, A, 0) moves it to the front. -/
theorem C2_negative_index_counterexample :
    commitDrop "b" "A" "A" (-1)
      [⟨"a", "A", 0, "", ""⟩, ⟨"b", "A", 1, "", ""⟩, ⟨"c", "A", 2, "", ""⟩] ≠
    commitDrop "b" "A" "A" 0
      [⟨"a", "A", 0, "", ""⟩, ⟨"b", "A", 1, "", ""⟩, ⟨"c", "A", 2, "", ""⟩] := by decide

/-- C2 amended: commit never signals an error for any targetIndex; a
targetIndex at or above the remaining length behaves as an append at the
end; a NEGATIVE targetIndex behaves as insertion at max(length + t, 0)
(JavaScript splice counts from the end), not as targetIndex 0. -/
theorem C2_index_clamp_amended (ts : List TaskItem) (X : TaskItem) (src tgt : String)
    (t : Int) (hu : UniqueIds ts) (hX : X ∈ ts) (hL : X.listId = src) :
    (commitDrop X.taskId src tgt t ts).isSome = true ∧
    ((Int.ofNat (if src = tgt then (members ts src).length - 1
        else (members ts tgt).length) ≤ t) →
      commitDrop X.taskId src tgt t ts = commitDrop X.taskId src tgt
        (Int.ofNat (if src = tgt then (members ts src).length - 1
          else (members ts tgt).length)) ts) ∧
    (t < 0 →
      commitDrop X.taskId src tgt t ts = commitDrop X.taskId src tgt
        (Int.ofNat ((Int.ofNat (if src = tgt then (members ts src).length - 1
          else (members ts tgt).length) + t).toNat)) ts) := by
  by_cases hst : src = tgt
  · subst hst
    simp only [eq_self_iff_true, if_true]
    set n := (members ts src).length - 1 with hn
    have hxs : ((sortByOrder (members ts src)).filter
        (fun u => u.taskId != X.taskId)).length = n :=
      length_filter_ne ts X src hu hX hL
    refine ⟨?_, ?_, ?_⟩
    · rw [commitDrop_same_eq ts X src t hu hX hL]
      rfl
    · intro hge
      rw [commitDrop_same_eq ts X src t hu hX hL,
        commitDrop_same_eq ts X src (Int.ofNat n) hu hX hL]
      have heq : spliceInsert ((sortByOrder (members ts src)).filter
          (fun u => u.taskId != X.taskId)) t X =
          spliceInsert ((sortByOrder (members ts src)).filter
            (fun u => u.taskId != X.taskId)) (Int.ofNat n) X := by
        apply spliceInsert_eq_of_start
        rw [hxs, spliceStart_of_ge t n (by exact_mod_cast hge), spliceStart_ofNat]
        omega
      rw [heq]
    · intro hneg
      rw [commitDrop_same_eq ts X src t hu hX hL,
        commitDrop_same_eq ts X src _ hu hX hL]
      have heq : spliceInsert ((sortByOrder (members ts src)).filter
          (fun u => u.taskId != X.taskId)) t X =
          spliceInsert ((sortByOrder (members ts src)).filter
            (fun u => u.taskId != X.taskId))
            (Int.ofNat ((Int.ofNat n + t).toNat)) X := by
        apply spliceInsert_eq_of_start
        rw [hxs, spliceStart_neg t n hneg, spliceStart_ofNat]
        simp only [Int.ofNat_eq_natCast]
        omega
      rw [heq]
  · simp only [hst, if_false]
    set n := (members ts tgt).length with hn
    have hxs : (sortByOrder (members ts tgt)).length = n := (sortK_perm _ _).length_eq
    refine ⟨?_, ?_, ?_⟩
    · rw [commitDrop_cross_eq ts X src tgt t hu hX hL hst]
      rfl
    · intro hge
      rw [commitDrop_cross_eq ts X src tgt t hu hX hL hst,
        commitDrop_cross_eq ts X src tgt (Int.ofNat n) hu hX hL hst]
      have heq : spliceInsert (sortByOrder (members ts tgt)) t { X with listId := tgt } =
          spliceInsert (sortByOrder (members ts tgt)) (Int.ofNat n)
            { X with listId := tgt } := by
        apply spliceInsert_eq_of_start
        rw [hxs, spliceStart_of_ge t n (by exact_mod_cast hge), spliceStart_ofNat]
        omega
      rw [heq]
    · intro hneg
      rw [commitDrop_cross_eq ts X src tgt t hu hX hL hst,
        commitDrop_cross_eq ts X src tgt _ hu hX hL hst]
      have heq : spliceInsert (sortByOrder (members ts tgt)) t { X with listId := tgt } =
          spliceInsert (sortByOrder (members ts tgt))
            (Int.ofNat ((Int.ofNat n + t).toNat)) { X with listId := tgt } := by
        apply spliceInsert_eq_of_start
        rw [hxs, spliceStart_neg t n hneg, spliceStart_ofNat]
        simp only [Int.ofNat_eq_natCast]
        omega
      rw [heq]

/-- Witness for the amended C2 at a concrete collection and negative index. -/
theorem C2_index_clamp_amended_witness :
    (commitDrop "b" "A" "A" (-1)
      [⟨"a", "A", 0, "", ""⟩, ⟨"b", "A", 1, "", ""⟩, ⟨"c", "A", 2, "", ""⟩]).isSome =
      true ∧
    ((Int.ofNat (if "A" = "A" then (members [⟨"a", "A", 0, "", ""⟩, ⟨"b", "A", 1, "", ""⟩,
        ⟨"c", "A", 2, "", ""⟩] "A").length - 1
        else (members [⟨"a", "A", 0, "", ""⟩, ⟨"b", "A", 1, "", ""⟩,
          ⟨"c", "A", 2, "", ""⟩] "A").length) ≤ (-1 : Int)) →
      commitDrop "b" "A" "A" (-1)
        [⟨"a", "A", 0, "", ""⟩, ⟨"b", "A", 1, "", ""⟩, ⟨"c", "A", 2, "", ""⟩] =
      commitDrop "b" "A" "A"
        (Int.ofNat (if "A" = "A" then (members [⟨"a", "A", 0, "", ""⟩, ⟨"b", "A", 1, "", ""⟩,
          ⟨"c", "A", 2, "", ""⟩] "A").length - 1
          else (members [⟨"a", "A", 0, "", ""⟩, ⟨"b", "A", 1, "", ""⟩,
            ⟨"c", "A", 2, "", ""⟩] "A").length))
        [⟨"a", "A", 0, "", ""⟩, ⟨"b", "A", 1, "", ""⟩, ⟨"c", "A", 2, "", ""⟩]) ∧
    ((-1 : Int) < 0 →
      commitDrop "b" "A" "A" (-1)
        [⟨"a", "A", 0, "", ""⟩, ⟨"b", "A", 1, "", ""⟩, ⟨"c", "A", 2, "", ""⟩] =
      commitDrop "b" "A" "A"
        (Int.ofNat ((Int.ofNat (if "A" = "A" then (members [⟨"a", "A", 0, "", ""⟩,
          ⟨"b", "A", 1, "", ""⟩, ⟨"c", "A", 2, "", ""⟩] "A").length - 1
          else (members [⟨"a", "A", 0, "", ""⟩, ⟨"b", "A", 1, "", ""⟩,
            ⟨"c", "A", 2, "", ""⟩] "A").length) + (-1 : Int)).toNat))
        [⟨"a", "A", 0, "", ""⟩, ⟨"b", "A", 1, "", ""⟩, ⟨"c", "A", 2, "", ""⟩]) :=
  C2_index_clamp_amended
    [⟨"a", "A", 0, "", ""⟩, ⟨"b", "A", 1, "", ""⟩, ⟨"c", "A", 2, "", ""⟩]
    ⟨"b", "A", 1, "", ""⟩ "A" "A" (-1) (by decide) (by decide) rfl

/-! ### Missing dragged item -/

theorem findIndex_isSome_of_mem (p : TaskItem → Bool) (l : List TaskItem) (X : TaskItem)
    (hX : X ∈ l) (hp : p X = true) : ∃ i, findIndex p l = some i ∧ i < l.length := by
  induction l with
  | nil => cases hX
  | cons a l ih =>
    by_cases ha : p a
    · exact ⟨0, by simp [findIndex, ha], by simp⟩
    · have hX2 : X ∈ l := by
        rcases List.mem_cons.mp hX with rfl | h2
        · exact absurd hp (by simpa using ha)
        · exact h2
      obtain ⟨i, hi, hlt⟩ := ih hX2
      exact ⟨i + 1, by simp [findIndex, ha, hi], by simpa using Nat.succ_lt_succ hlt⟩

theorem getD_mem (l : List TaskItem) (i : Nat) (d : TaskItem) (h : i < l.length) :
    l.getD i d ∈ l := by
  induction l generalizing i with
  | nil => cases h
  | cons a l ih =>
    cases i with
    | zero => exact List.mem_cons_self a l
    | succ j =>
      have hj : j < l.length := Nat.lt_of_succ_lt_succ h
      have := ih j hj
      simpa using List.mem_cons_of_mem a this

/-- C3 counterexample: a commit whose itemId is absent from the collection
does NOT return normally — the same-list branch dereferences the result of
a failed find and the cross-list branch writes through index -1; both are
modelled as `none` (a thrown TypeError). -/
theorem C3_missing_item_counterexample :
    commitDrop "z" "A" "A" 0 [⟨"a", "A", 0, "", ""⟩] = none ∧
    commitDrop "z" "A" "B" 0 [⟨"a", "A", 0, "", ""⟩] = none := by decide

/-- C3 amended: a commit whose itemId has no match in the collection (or,
in the same-list case, no match among sourceListId's members) throws — it
is modelled as `none` — in both branches; only when the item exists
somewhere in the collection does the cross-list branch return normally.
The missing reference is NOT absorbed as a best-effort default. -/
theorem C3_missing_item_amended (ts : List TaskItem) (sid src tgt : String) (t : Int) :
    (src = tgt → (∀ u ∈ members ts src, u.taskId ≠ sid) →
      commitDrop sid src tgt t ts = none) ∧
    (src ≠ tgt → (∀ u ∈ ts, u.taskId ≠ sid) →
      commitDrop sid src tgt t ts = none) ∧
    (src ≠ tgt → ∀ X ∈ ts, X.taskId = sid →
      (commitDrop sid src tgt t ts).isSome = true) := by
  refine ⟨?_, ?_, ?_⟩
  · intro hst habs
    subst hst
    unfold commitDrop
    rw [if_pos (by simp)]
    dsimp only
    have hfind : (sortByOrder (ts.filter (fun u => u.listId == src))).find?
        (fun u => u.taskId == sid) = none := by
      rw [List.find?_eq_none]
      intro x hx
      have hxm : x ∈ members ts src := mem_sortByOrder.mp hx
      simpa using habs x hxm
    rw [hfind]
  · intro hst habs
    unfold commitDrop
    rw [if_neg (by simpa using hst)]
    dsimp only
    rw [findIndex_eq_none _ _ (fun u hum => by simpa using habs u hum)]
  · intro hst X hX hXid
    obtain ⟨i, hi, hilt⟩ := findIndex_isSome_of_mem (fun u => u.taskId == sid) ts X hX
      (by simpa using hXid)
    unfold commitDrop
    rw [if_neg (by simpa using hst)]
    dsimp only
    rw [hi]
    dsimp only
    have hlen1 : (ts.set i { ts.getD i default with listId := tgt }).length = ts.length := by
      simp
    obtain ⟨u2, hu2, hids2⟩ := writeOrders_some
      (sortByOrder ((ts.set i { ts.getD i default with listId := tgt }).filter
        (fun u => u.listId == src))) 0
      (ts.set i { ts.getD i default with listId := tgt })
      (fun x hx => List.mem_map_of_mem _
        (List.mem_of_mem_filter (mem_sortByOrder.mp hx)))
    rw [hu2, Option.some_bind]
    have hlen2 : u2.length = ts.length := by
      have h1 := congrArg List.length hids2
      simp only [List.length_map] at h1
      rw [h1, hlen1]
    have hsub : ∀ x ∈ spliceInsert ((sortByOrder (u2.filter
        (fun u => u.listId == tgt))).filter (fun u => u.taskId != sid)) t
        (u2.getD i default), x.taskId ∈ u2.map (·.taskId) := by
      intro x hx
      rcases List.mem_cons.mp ((spliceInsert_perm _ t _).mem_iff.mp hx) with rfl | hxm
      · exact List.mem_map_of_mem _ (getD_mem u2 i default (by rw [hlen2]; exact hilt))
      · exact List.mem_map_of_mem _
          (List.mem_of_mem_filter (mem_sortByOrder.mp (List.mem_of_mem_filter hxm)))
    obtain ⟨u3, hu3, _⟩ := writeOrders_some
      (spliceInsert ((sortByOrder (u2.filter (fun u => u.listId == tgt))).filter
        (fun u => u.taskId != sid)) t (u2.getD i default)) 0 u2 hsub
    rw [hu3]
    rfl

/-- Witness for the amended C3. -/
theorem C3_missing_item_amended_witness :
    (("A" : String) = "A" → (∀ u ∈ members [⟨"a", "A", 0, "", ""⟩] "A", u.taskId ≠ "z") →
      commitDrop "z" "A" "A" 0 [⟨"a", "A", 0, "", ""⟩] = none) ∧
    (("A" : String) ≠ "A" → (∀ u ∈ [(⟨"a", "A", 0, "", ""⟩ : TaskItem)], u.taskId ≠ "z") →
      commitDrop "z" "A" "A" 0 [⟨"a", "A", 0, "", ""⟩] = none) ∧
    (("A" : String) ≠ "A" → ∀ X ∈ [(⟨"a", "A", 0, "", ""⟩ : TaskItem)], X.taskId = "z" →
      (commitDrop "z" "A" "A" 0 [⟨"a", "A", 0, "", ""⟩]).isSome = true) :=
  C3_missing_item_amended [⟨"a", "A", 0, "", ""⟩] "z" "A" "A" 0

/-! ### Hit-test lemmas -/

theorem findInsert_mono (y1 y2 : ℚ) (h : y1 ≤ y2) (l : List ItemLayout) :
    findInsert y1 l ≤ findInsert y2 l := by
  induction l with
  | nil => exact Nat.le_refl _
  | cons it rest ih =>
    unfold findInsert
    by_cases h2 : y2 < it.pageY + it.height / 2
    · rw [if_pos (lt_of_le_of_lt h h2), if_pos h2]
    · by_cases h1 : y1 < it.pageY + it.height / 2
      · rw [if_pos h1, if_neg h2]
        exact Nat.zero_le _
      · rw [if_neg h1, if_neg h2]
        exact Nat.succ_le_succ ih

theorem findInsert_ge (y : ℚ) (l : List ItemLayout) (j : Nat) (hj : j < l.length)
    (h : ∀ k, (hk : k < l.length) → k ≤ j → l[k].pageY + l[k].height / 2 ≤ y) :
    j + 1 ≤ findInsert y l := by
  induction l generalizing j with
  | nil => cases hj
  | cons it rest ih =>
    have h0 : it.pageY + it.height / 2 ≤ y := by
      have := h 0 (by simp) (Nat.zero_le j)
      simpa using this
    unfold findInsert
    rw [if_neg (not_lt.mpr h0)]
    cases j with
    | zero => omega
    | succ k =>
      have hk : k < rest.length := Nat.lt_of_succ_lt_succ hj
      have hrec := ih k hk (fun m hm hmk => by
        have := h (m + 1) (Nat.succ_lt_succ hm) (Nat.succ_le_succ hmk)
        simpa using this)
      omega

theorem hitTest1_snd (il : List ItemLayout) (ll : List ListLayout) (d : Option String)
    (y : ℚ) (L : String) (h : (hitTest1 il ll d y).1 = some L) :
    (hitTest1 il ll d y).2 = Int.ofNat (findInsert y (sortItemsByOrder (il.filter
      (fun it => it.listId == L && some it.taskId != d)))) := by
  unfold hitTest1 at h ⊢
  dsimp only at h ⊢
  cases hf : ll.find? (insideListLayout y) with
  | none =>
    rw [hf] at h
    simp at h
  | some l =>
    rw [hf] at h
    dsimp only at h ⊢
    have hl : l.listId = L := by simpa using h
    rw [hl]

theorem hitTest2_snd (il : List ItemLayout) (ll : List ListLayout) (d : Option String)
    (y : ℚ) (L : String) (h : (hitTest2 il ll d y).1 = some L) :
    (hitTest2 il ll d y).2 = Int.ofNat (findInsert y (sortItemsByPageY (il.filter
      (fun it => it.listId == L)))) := by
  unfold hitTest2 at h ⊢
  dsimp only at h ⊢
  cases hf : (collectListIds (collectListIds [] (il.map (·.listId)))
      (ll.map (·.listId))).find? (insideItemsOrLayout il ll y) with
  | none =>
    rw [hf] at h
    simp at h
  | some lid =>
    rw [hf] at h
    dsimp only at h ⊢
    have hl : lid = L := by simpa using h
    rw [hl]

/-- C6 counterexample: with one list whose only item spans [0, 10], the
finger at y = 10 (inside the list) yields insertion index 1, while the
finger at y = 11 (just below the list) yields -1: increasing the pointer Y
decreases the returned index, in both hitTest versions. -/
theorem C6_monotonicity_counterexample :
    ((10 : ℚ) ≤ 11) ∧
    (hitTest1 [⟨"a", "L", 0, 10, 0⟩] [⟨"L", 0, 10⟩] none 10).2 = 1 ∧
    (hitTest1 [⟨"a", "L", 0, 10, 0⟩] [⟨"L", 0, 10⟩] none 11).2 = -1 ∧
    (hitTest2 [⟨"a", "L", 0, 10, 0⟩] [] none 10).2 = 1 ∧
    (hitTest2 [⟨"a", "L", 0, 10, 0⟩] [] none 11).2 = -1 := by
  refine ⟨by norm_num, ?_, ?_, ?_, ?_⟩ <;>
    norm_num [hitTest1, hitTest2, collectListIds, insideItemsOrLayout, sortItemsByPageY,
      sortItemsByOrder, sortK, insertK, findInsert, insideListLayout, List.find?,
      List.filter, List.contains, List.getLast]

/-- C6 amended: the insertion index is monotone in the pointer Y only
while the resolved candidate list stays the same: for both hitTest
versions, if y1 ≤ y2 resolve to the same list L, then the index at y1 is
at most the index at y2.  Across candidate-list changes (or when the
pointer leaves all lists, where the index becomes -1) the index can
decrease. -/
theorem C6_monotonicity_amended (il : List ItemLayout) (ll : List ListLayout)
    (d : Option String) (y1 y2 : ℚ) (L : String) (hy : y1 ≤ y2) :
    ((hitTest1 il ll d y1).1 = some L → (hitTest1 il ll d y2).1 = some L →
      (hitTest1 il ll d y1).2 ≤ (hitTest1 il ll d y2).2) ∧
    ((hitTest2 il ll d y1).1 = some L → (hitTest2 il ll d y2).1 = some L →
      (hitTest2 il ll d y1).2 ≤ (hitTest2 il ll d y2).2) := by
  constructor
  · intro h1 h2
    rw [hitTest1_snd il ll d y1 L h1, hitTest1_snd il ll d y2 L h2]
    exact Int.ofNat_le.mpr (findInsert_mono y1 y2 hy _)
  · intro h1 h2
    rw [hitTest2_snd il ll d y1 L h1, hitTest2_snd il ll d y2 L h2]
    exact Int.ofNat_le.mpr (findInsert_mono y1 y2 hy _)

/-- Witness for the amended C6: same candidate list, index 0 at y = 3 and
index 1 at y = 12. -/
theorem C6_monotonicity_amended_witness :
    (hitTest1 [⟨"a", "L", 0, 10, 0⟩, ⟨"b", "L", 10, 10, 1⟩] [⟨"L", 0, 20⟩] none 3).2 ≤
      (hitTest1 [⟨"a", "L", 0, 10, 0⟩, ⟨"b", "L", 10, 10, 1⟩] [⟨"L", 0, 20⟩] none 12).2 ∧
    (hitTest2 [⟨"a", "L", 0, 10, 0⟩, ⟨"b", "L", 10, 10, 1⟩] [⟨"L", 0, 20⟩] none 3).2 ≤
      (hitTest2 [⟨"a", "L", 0, 10, 0⟩, ⟨"b", "L", 10, 10, 1⟩] [⟨"L", 0, 20⟩] none 12).2 := by
  have h := C6_monotonicity_amended [⟨"a", "L", 0, 10, 0⟩, ⟨"b", "L", 10, 10, 1⟩]
    [⟨"L", 0, 20⟩] none 3 12 "L" (by norm_num)
  refine ⟨h.1 ?_ ?_, h.2 ?_ ?_⟩ <;>
    norm_num [hitTest1, hitTest2, collectListIds, insideItemsOrLayout, sortItemsByPageY,
      sortItemsByOrder, sortK, insertK, findInsert, insideListLayout, List.find?,
      List.filter, List.contains, List.getLast]

/-- C5 counterexample: the only item of list "L" spans [0, 10], midpoint 5;
with the finger exactly at the midpoint both hitTest versions return
insertion index 1 — the position AFTER the tied item — not 0, the position
of the item in the sorted sequence. -/
theorem C5_tie_break_counterexample :
    ((⟨"a", "L", 0, 10, 0⟩ : ItemLayout).pageY +
      (⟨"a", "L", 0, 10, 0⟩ : ItemLayout).height / 2 = (5 : ℚ)) ∧
    hitTest1 [⟨"a", "L", 0, 10, 0⟩] [⟨"L", 0, 10⟩] (some "d") 5 = (some "L", 1) ∧
    hitTest2 [⟨"a", "L", 0, 10, 0⟩] [⟨"L", 0, 10⟩] (some "d") 5 = (some "L", 1) ∧
    ((1 : Int) ≠ 0) := by
  refine ⟨by norm_num, ?_, ?_, by decide⟩ <;>
    norm_num [hitTest1, hitTest2, collectListIds, insideItemsOrLayout, sortItemsByPageY,
      sortItemsByOrder, sortK, insertK, findInsert, insideListLayout, List.find?,
      List.filter, List.contains, List.getLast]

/-- C5 amended: exact midpoint equality resolves to insert AFTER the tied
item (the comparison is strict less-than, so equality falls through): if
every item up to position j of the candidate sequence has its midpoint at
or above the pointer (in particular when item j's midpoint equals the
pointer Y), the returned index is at least j + 1 — never the tied item's
own position. -/
theorem C5_tie_break_amended (il : List ItemLayout) (ll : List ListLayout)
    (d : Option String) (y : ℚ) (L : String) (j : Nat) :
    ((hitTest1 il ll d y).1 = some L →
      ∀ (_ : j < (sortItemsByOrder (il.filter
          (fun it => it.listId == L && some it.taskId != d))).length),
      (∀ k, (hk : k < (sortItemsByOrder (il.filter
          (fun it => it.listId == L && some it.taskId != d))).length) → k ≤ j →
        (sortItemsByOrder (il.filter
          (fun it => it.listId == L && some it.taskId != d)))[k].pageY +
        (sortItemsByOrder (il.filter
          (fun it => it.listId == L && some it.taskId != d)))[k].height / 2 ≤ y) →
      Int.ofNat (j + 1) ≤ (hitTest1 il ll d y).2) ∧
    ((hitTest2 il ll d y).1 = some L →
      ∀ (_ : j < (sortItemsByPageY (il.filter (fun it => it.listId == L))).length),
      (∀ k, (hk : k < (sortItemsByPageY (il.filter
          (fun it => it.listId == L))).length) → k ≤ j →
        (sortItemsByPageY (il.filter (fun it => it.listId == L)))[k].pageY +
        (sortItemsByPageY (il.filter (fun it => it.listId == L)))[k].height / 2 ≤ y) →
      Int.ofNat (j + 1) ≤ (hitTest2 il ll d y).2) := by
  constructor
  · intro h1 hj hmid
    rw [hitTest1_snd il ll d y L h1]
    exact Int.ofNat_le.mpr (findInsert_ge y _ j hj hmid)
  · intro h1 hj hmid
    rw [hitTest2_snd il ll d y L h1]
    exact Int.ofNat_le.mpr (findInsert_ge y _ j hj hmid)

/-- Witness for the amended C5 at the tie input: index is at least 1. -/
theorem C5_tie_break_amended_witness :
    Int.ofNat 1 ≤ (hitTest1 [⟨"a", "L", 0, 10, 0⟩] [⟨"L", 0, 10⟩] (some "d") 5).2 ∧
    Int.ofNat 1 ≤ (hitTest2 [⟨"a", "L", 0, 10, 0⟩] [⟨"L", 0, 10⟩] (some "d") 5).2 := by
  have hl1 : sortItemsByOrder (([⟨"a", "L", 0, 10, 0⟩] : List ItemLayout).filter
      (fun it => it.listId == "L" && some it.taskId != some "d")) =
      [⟨"a", "L", 0, 10, 0⟩] := by
    norm_num [sortItemsByOrder, sortK, insertK, List.filter]
  have hl2 : sortItemsByPageY (([⟨"a", "L", 0, 10, 0⟩] : List ItemLayout).filter
      (fun it => it.listId == "L")) = [⟨"a", "L", 0, 10, 0⟩] := by
    norm_num [sortItemsByPageY, sortK, insertK, List.filter]
  have h := C5_tie_break_amended [⟨"a", "L", 0, 10, 0⟩] [⟨"L", 0, 10⟩] (some "d") 5 "L" 0
  constructor
  · refine h.1 ?_ ?_ ?_
    · norm_num [hitTest1, insideListLayout, List.find?]
    · rw [hl1]
      norm_num
    · intro k hk _
      rw [hl1] at hk
      interval_cases k
      norm_num [sortItemsByOrder, sortK, insertK, List.filter]
  · refine h.2 ?_ ?_ ?_
    · norm_num [hitTest2, collectListIds, insideItemsOrLayout, sortItemsByPageY, sortK,
        insertK, insideListLayout, List.find?, List.filter, List.contains, List.getLast]
    · rw [hl2]
      norm_num
    · intro k hk _
      rw [hl2] at hk
      interval_cases k
      norm_num [sortItemsByPageY, sortK, insertK, List.filter]

/-- C4 counterexample: (a) the second hitTest counts the dragged item's
own midpoint — at finger y = 12 it returns index 1 where the
exclude-the-dragged-item computation of the spec gives 0; (b) the first
hitTest sorts the candidate items by their (possibly stale) order field,
not by vertical position — with orders disagreeing with pageY it returns 0
where the vertically-sorted computation gives 1. -/
theorem C4_exclusion_counterexample :
    (hitTest2 [⟨"d", "L", 0, 10, 0⟩, ⟨"a", "L", 10, 10, 1⟩] [] (some "d") 12).1 =
      some "L" ∧
    (hitTest2 [⟨"d", "L", 0, 10, 0⟩, ⟨"a", "L", 10, 10, 1⟩] [] (some "d") 12).2 ≠
      Int.ofNat (specHitIndex [⟨"d", "L", 0, 10, 0⟩, ⟨"a", "L", 10, 10, 1⟩]
        (some "d") "L" 12) ∧
    (hitTest1 [⟨"a", "L", 100, 10, 0⟩, ⟨"b", "L", 0, 10, 1⟩] [⟨"L", 0, 200⟩]
      (some "d") 50).1 = some "L" ∧
    (hitTest1 [⟨"a", "L", 100, 10, 0⟩, ⟨"b", "L", 0, 10, 1⟩] [⟨"L", 0, 200⟩]
      (some "d") 50).2 ≠
      Int.ofNat (specHitIndex [⟨"a", "L", 100, 10, 0⟩, ⟨"b", "L", 0, 10, 1⟩]
        (some "d") "L" 50) := by
  refine ⟨?_, ?_, ?_, ?_⟩ <;>
    norm_num [hitTest1, hitTest2, specHitIndex, collectListIds, insideItemsOrLayout,
      sortItemsByPageY, sortItemsByOrder, sortK, insertK, findInsert, insideListLayout,
      List.find?, List.filter, List.contains, List.getLast]

/-- C4 amended: the first hitTest never counts the dragged item (its result
depends only on the non-dragged layout entries), but sorts by the order
field; the second hitTest sorts by vertical position but computes the
index over ALL the candidate list's items, the dragged one included. -/
theorem C4_exclusion_amended :
    (∀ (il1 il2 : List ItemLayout) (ll : List ListLayout) (d : String) (y : ℚ),
      il1.filter (fun it => some it.taskId != some d) =
        il2.filter (fun it => some it.taskId != some d) →
      hitTest1 il1 ll (some d) y = hitTest1 il2 ll (some d) y) ∧
    (∀ (il : List ItemLayout) (ll : List ListLayout) (d : Option String) (y : ℚ)
      (L : String), (hitTest2 il ll d y).1 = some L →
      (hitTest2 il ll d y).2 = Int.ofNat (findInsert y (sortItemsByPageY
        (il.filter (fun it => it.listId == L))))) := by
  constructor
  · intro il1 il2 ll d y hfeq
    have key : ∀ il : List ItemLayout, ∀ L : String,
        il.filter (fun it => it.listId == L && some it.taskId != some d) =
        (il.filter (fun it => some it.taskId != some d)).filter
          (fun it => it.listId == L) := by
      intro il L
      rw [List.filter_filter]
    unfold hitTest1
    cases hf : ll.find? (insideListLayout y) with
    | none => rfl
    | some l =>
      dsimp only
      rw [key il1 l.listId, key il2 l.listId, hfeq]
  · intro il ll d y L h
    exact hitTest2_snd il ll d y L h

/-- Witness for the amended C4: changing only the dragged item's layout
entry leaves the first hitTest's result unchanged, and the second hitTest's
index is the all-items vertically-sorted computation. -/
theorem C4_exclusion_amended_witness :
    hitTest1 [⟨"d", "L", 0, 10, 0⟩, ⟨"a", "L", 10, 10, 1⟩] [⟨"L", 0, 20⟩] (some "d") 12 =
      hitTest1 [⟨"d", "L", 500, 3, 7⟩, ⟨"a", "L", 10, 10, 1⟩] [⟨"L", 0, 20⟩]
        (some "d") 12 ∧
    (hitTest2 [⟨"d", "L", 0, 10, 0⟩, ⟨"a", "L", 10, 10, 1⟩] [] (some "d") 12).2 =
      Int.ofNat (findInsert 12 (sortItemsByPageY
        (([⟨"d", "L", 0, 10, 0⟩, ⟨"a", "L", 10, 10, 1⟩] : List ItemLayout).filter
          (fun it => it.listId == "L")))) := by
  constructor
  · exact C4_exclusion_amended.1 [⟨"d", "L", 0, 10, 0⟩, ⟨"a", "L", 10, 10, 1⟩]
      [⟨"d", "L", 500, 3, 7⟩, ⟨"a", "L", 10, 10, 1⟩] [⟨"L", 0, 20⟩] "d" 12 (by rfl)
  · exact C4_exclusion_amended.2 [⟨"d", "L", 0, 10, 0⟩, ⟨"a", "L", 10, 10, 1⟩] []
      (some "d") 12 "L" (by norm_num [hitTest2, collectListIds, insideItemsOrLayout,
        sortItemsByPageY, sortK, insertK, insideListLayout, List.find?, List.filter,
        List.contains, List.getLast])

/-! ### Auto-scroll -/

/-- C9 counterexample: y = 0 lies above the viewport (top edge at 100),
outside both the top edge zone [100, 180] and the bottom edge zone
[420, 500], yet the scroll delta is -54, not zero: the code scrolls for
ANY y below the top threshold, even outside the viewport. -/
theorem C9_autoscroll_counterexample :
    ¬ ((100 : ℚ) ≤ 0 ∧ (0 : ℚ) ≤ 100 + 80) ∧
    ¬ ((100 + 400 - 80 : ℚ) ≤ 0 ∧ (0 : ℚ) ≤ 100 + 400) ∧
    checkAutoScroll 100 400 0 = -54 ∧ (-54 : ℚ) ≠ 0 := by
  refine ⟨by norm_num, by norm_num, by norm_num [checkAutoScroll], by norm_num⟩

/-- C9 amended: inside the top zone [viewportTop, viewportTop+80) the
delta is negative and strictly larger in magnitude closer to the top edge;
symmetrically in the bottom zone (provided the viewport is at least 160
tall so the zones do not overlap); BETWEEN the two thresholds the delta is
zero; but any pointer above the top threshold — even above the viewport
itself — still produces a negative delta, so the delta is not zero
everywhere outside the two zones. -/
theorem C9_autoscroll_amended (vt h y1 y2 y : ℚ) :
    (vt ≤ y1 → y1 < y2 → y2 < vt + 80 →
      checkAutoScroll vt h y1 < checkAutoScroll vt h y2 ∧
      checkAutoScroll vt h y2 < 0) ∧
    (160 ≤ h → vt + h - 80 < y1 → y1 < y2 → y2 ≤ vt + h →
      0 < checkAutoScroll vt h y1 ∧
      checkAutoScroll vt h y1 < checkAutoScroll vt h y2) ∧
    (vt + 80 ≤ y → y ≤ vt + h - 80 → checkAutoScroll vt h y = 0) ∧
    (y < vt + 80 → checkAutoScroll vt h y < 0) := by
  refine ⟨?_, ?_, ?_, ?_⟩
  · intro hv h12 h2
    have c1 : y1 < vt + 80 := by linarith
    have c2 : y2 < vt + 80 := h2
    simp only [checkAutoScroll, if_pos c1, if_pos c2]
    constructor
    · have hpos : 0 < (y2 - y1) * (3 / 10) := mul_pos (by linarith) (by norm_num)
      nlinarith
    · have hpos : 0 < (vt + 80 - y2) * (3 / 10) := mul_pos (by linarith) (by norm_num)
      linarith
  · intro hh h1 h12 h2
    have c1 : ¬ (y1 < vt + 80) := by linarith
    have c2 : y1 > vt + h - 80 := h1
    have c3 : ¬ (y2 < vt + 80) := by linarith
    have c4 : y2 > vt + h - 80 := by linarith
    simp only [checkAutoScroll, if_neg c1, if_pos c2, if_neg c3, if_pos c4]
    constructor
    · exact mul_pos (by linarith) (by norm_num)
    · have hpos : 0 < (y2 - y1) * (3 / 10) := mul_pos (by linarith) (by norm_num)
      nlinarith
  · intro h1 h2
    have c1 : ¬ (y < vt + 80) := by linarith
    have c2 : ¬ (y > vt + h - 80) := by linarith
    simp only [checkAutoScroll, if_neg c1, if_neg c2]
  · intro h1
    simp only [checkAutoScroll, if_pos h1]
    have hpos : 0 < (vt + 80 - y) * (3 / 10) := mul_pos (by linarith) (by norm_num)
    linarith

/-- Witness for the amended C9 on a 100..500 viewport. -/
theorem C9_autoscroll_amended_witness :
    (checkAutoScroll 100 400 110 < checkAutoScroll 100 400 120 ∧
      checkAutoScroll 100 400 120 < 0) ∧
    (0 < checkAutoScroll 100 400 430 ∧
      checkAutoScroll 100 400 430 < checkAutoScroll 100 400 450) ∧
    checkAutoScroll 100 400 250 = 0 ∧
    checkAutoScroll 100 400 0 < 0 := by
  refine ⟨(C9_autoscroll_amended 100 400 110 120 250).1 (by norm_num) (by norm_num)
      (by norm_num),
    (C9_autoscroll_amended 100 400 430 450 250).2.1 (by norm_num) (by norm_num)
      (by norm_num) (by norm_num),
    (C9_autoscroll_amended 100 400 110 120 250).2.2.1 (by norm_num) (by norm_num),
    (C9_autoscroll_amended 100 400 110 120 0).2.2.2 (by norm_num)⟩



/-- A list that is a permutation of a strictly order-sorted list sorts to
exactly that list. -/
theorem sortByOrder_eq_of_perm (l l2 : List TaskItem) (hperm : List.Perm l l2)
    (hsorted : l2.Pairwise (fun a b => a.order < b.order)) : sortByOrder l = l2 := by
  have hperm2 : List.Perm (sortByOrder l) l2 := (sortK_perm _ l).trans hperm
  have hle : (sortByOrder l).Pairwise (fun a b => a.order ≤ b.order) := sortK_pairwise _ l
  have hnodup2 : (l2.map (·.order)).Nodup :=
    List.pairwise_map.mpr (hsorted.imp (fun h => ne_of_lt h))
  have hnodup1 : ((sortByOrder l).map (·.order)).Nodup :=
    (hperm2.map _).nodup_iff.mpr hnodup2
  have hne : (sortByOrder l).Pairwise (fun a b => a.order ≠ b.order) :=
    List.pairwise_map.mp hnodup1
  have hlt : (sortByOrder l).Pairwise (fun a b => a.order < b.order) :=
    (hle.and hne).imp (fun h => lt_of_le_of_ne h.1 h.2)
  haveI : IsAntisymm TaskItem (fun a b => a.order < b.order) :=
    ⟨fun a b h1 h2 => absurd (lt_trans h1 h2) (lt_irrefl _)⟩
  exact List.eq_of_perm_of_sorted hperm2 hlt hsorted

/-- Filtering by task id commutes with mapping a taskId-preserving
function. -/
theorem filter_id_map (f : TaskItem → TaskItem) (hf : ∀ u, (f u).taskId = u.taskId)
    (l : List TaskItem) (s : String) :
    (l.map f).filter (fun u => u.taskId != s) = (l.filter (fun u => u.taskId != s)).map f := by
  rw [filter_map_comm]
  congr 1
  apply List.filter_congr
  intro u _
  rw [hf u]


/-- A writeOrders pass does not change the ids of a collection. -/
theorem map_orderAssign_ids (seq : List TaskItem) (i0 : Nat) (l : List TaskItem) :
    (l.map (orderAssign seq i0)).map (·.taskId) = l.map (·.taskId) := by
  rw [List.map_map]
  apply List.map_congr_left
  intro u _
  exact (orderAssign_fields seq i0 u).1

set_option maxHeartbeats 1600000 in
/-- C8: round-trip cross-list move. In a settled collection where list A
holds exactly three members sorting to [a0, x, a2] (x at index 1) and list
B holds exactly two members sorting to [b0, b1], the call
commit(x, A, B, 0) followed by commit(x, B, A, 1) succeeds and returns the
original collection: in particular list A's members again sort to
[a0, x, a2] with their original order values and list B's members again
sort to [b0, b1] with their original order values. -/
theorem C8_round_trip (ts : List TaskItem) (a0 x a2 b0 b1 : TaskItem) (A B : String)
    (hsettled : Settled ts) (hAB : A ≠ B)
    (hA : sortByOrder (members ts A) = [a0, x, a2])
    (hB : sortByOrder (members ts B) = [b0, b1]) :
    ∃ l1 l2, commitDrop x.taskId A B 0 ts = some l1 ∧
      commitDrop x.taskId B A 1 l1 = some l2 ∧ l2 = ts ∧
      sortByOrder (members l2 A) = [a0, x, a2] ∧
      sortByOrder (members l2 B) = [b0, b1] := by
  obtain ⟨hu, hdense⟩ := hsettled
  -- memberships
  have hxA : x ∈ members ts A := mem_sortByOrder.mp (by rw [hA]; simp)
  have ha0A : a0 ∈ members ts A := mem_sortByOrder.mp (by rw [hA]; simp)
  have ha2A : a2 ∈ members ts A := mem_sortByOrder.mp (by rw [hA]; simp)
  have hb0B : b0 ∈ members ts B := mem_sortByOrder.mp (by rw [hB]; simp)
  have hb1B : b1 ∈ members ts B := mem_sortByOrder.mp (by rw [hB]; simp)
  have hxts : x ∈ ts := (mem_members.mp hxA).1
  have ha0ts : a0 ∈ ts := (mem_members.mp ha0A).1
  have ha2ts : a2 ∈ ts := (mem_members.mp ha2A).1
  have hb0ts : b0 ∈ ts := (mem_members.mp hb0B).1
  have hb1ts : b1 ∈ ts := (mem_members.mp hb1B).1
  have hxl : x.listId = A := (mem_members.mp hxA).2
  have ha0l : a0.listId = A := (mem_members.mp ha0A).2
  have ha2l : a2.listId = A := (mem_members.mp ha2A).2
  have hb0l : b0.listId = B := (mem_members.mp hb0B).2
  have hb1l : b1.listId = B := (mem_members.mp hb1B).2
  -- lengths and orders
  have hlenA : (members ts A).length = 3 := by
    have h1 : (sortByOrder (members ts A)).length = (members ts A).length :=
      (sortK_perm _ _).length_eq
    rw [hA] at h1
    simpa using h1.symm
  have hlenB : (members ts B).length = 2 := by
    have h1 : (sortByOrder (members ts B)).length = (members ts B).length :=
      (sortK_perm _ _).length_eq
    rw [hB] at h1
    simpa using h1.symm
  have hordA : ([a0, x, a2].map (·.order)) = [Int.ofNat 0, Int.ofNat 1, Int.ofNat 2] := by
    rw [← hA, sortByOrder_map_order _ (hdense A), hlenA]
    rfl
  have hordB : ([b0, b1].map (·.order)) = [Int.ofNat 0, Int.ofNat 1] := by
    rw [← hB, sortByOrder_map_order _ (hdense B), hlenB]
    rfl
  simp only [List.map_cons, List.map_nil, List.cons.injEq, and_true] at hordA hordB
  obtain ⟨ha0o, hxo, ha2o⟩ := hordA
  obtain ⟨hb0o, hb1o⟩ := hordB
  -- distinct ids
  have hidsA : ([a0, x, a2].map (·.taskId)).Nodup := by
    rw [← hA]
    exact sortByOrder_ids_nodup _ (uniqueIds_members ts hu A)
  have hidsB : ([b0, b1].map (·.taskId)).Nodup := by
    rw [← hB]
    exact sortByOrder_ids_nodup _ (uniqueIds_members ts hu B)
  simp only [List.map_cons, List.map_nil, List.nodup_cons, List.mem_cons,
    List.not_mem_nil, or_false, List.nodup_nil, and_true, not_or] at hidsA hidsB
  obtain ⟨⟨ha0x, ha0a2⟩, hxa2, -⟩ := hidsA
  obtain ⟨hb0b1, -⟩ := hidsB
  have hdiff : ∀ u v : TaskItem, u ∈ ts → v ∈ ts → u.listId ≠ v.listId →
      u.taskId ≠ v.taskId := fun u v hu1 hv1 hne heq =>
    hne (by rw [uniqueIds_eq_of_taskId hu hu1 hv1 heq])
  have hABl : ∀ u v : TaskItem, u.listId = A → v.listId = B → u ∈ ts → v ∈ ts →
      u.taskId ≠ v.taskId := fun u v hul hvl hu1 hv1 =>
    hdiff u v hu1 hv1 (by rw [hul, hvl]; exact hAB)
  have hxb0 : x.taskId ≠ b0.taskId := hABl x b0 hxl hb0l hxts hb0ts
  have hxb1 : x.taskId ≠ b1.taskId := hABl x b1 hxl hb1l hxts hb1ts
  have ha0b0 : a0.taskId ≠ b0.taskId := hABl a0 b0 ha0l hb0l ha0ts hb0ts
  have ha0b1 : a0.taskId ≠ b1.taskId := hABl a0 b1 ha0l hb1l ha0ts hb1ts
  have ha2b0 : a2.taskId ≠ b0.taskId := hABl a2 b0 ha2l hb0l ha2ts hb0ts
  have ha2b1 : a2.taskId ≠ b1.taskId := hABl a2 b1 ha2l hb1l ha2ts hb1ts
  -- boolean-equality facts
  have fa0x : (a0.taskId == x.taskId) = false := beq_eq_false_iff_ne.mpr ha0x
  have fxa2 : (x.taskId == a2.taskId) = false := beq_eq_false_iff_ne.mpr hxa2
  have fa2x : (a2.taskId == x.taskId) = false := beq_eq_false_iff_ne.mpr (Ne.symm hxa2)
  have fa0a2 : (a0.taskId == a2.taskId) = false := beq_eq_false_iff_ne.mpr ha0a2
  have fxb0 : (x.taskId == b0.taskId) = false := beq_eq_false_iff_ne.mpr hxb0
  have fb0x : (b0.taskId == x.taskId) = false := beq_eq_false_iff_ne.mpr (Ne.symm hxb0)
  have fxb1 : (x.taskId == b1.taskId) = false := beq_eq_false_iff_ne.mpr hxb1
  have fb1x : (b1.taskId == x.taskId) = false := beq_eq_false_iff_ne.mpr (Ne.symm hxb1)
  have fb0b1 : (b0.taskId == b1.taskId) = false := beq_eq_false_iff_ne.mpr hb0b1
  -- the filtered-source re-index sequence of the first move
  have hseqS1 : sortByOrder ((members ts A).filter (fun u => u.taskId != x.taskId)) =
      [a0, a2] := by
    rw [sortByOrder_filter, hA]
    have q1 : (a0.taskId != x.taskId) = true := bne_iff_ne.mpr ha0x
    have q2 : (x.taskId != x.taskId) = false := by simp
    have q3 : (a2.taskId != x.taskId) = true := bne_iff_ne.mpr (Ne.symm hxa2)
    simp [List.filter_cons, q1, q2, q3]
  have hseqT1 : spliceInsert (sortByOrder (members ts B)) 0 { x with listId := B } =
      [{ x with listId := B }, b0, b1] := by
    rw [hB]
    rfl
  have hmove1 : commitDrop x.taskId A B 0 ts =
      some (((ts.map (moveAssign x B)).map (orderAssign [a0, a2] 0)).map
        (orderAssign [{ x with listId := B }, b0, b1] 0)) := by
    have h := commitDrop_cross_eq ts x A B 0 hu hxts hxl hAB
    rw [hseqS1, hseqT1] at h
    exact h
  set ts1 : List TaskItem := ((ts.map (moveAssign x B)).map (orderAssign [a0, a2] 0)).map
    (orderAssign [{ x with listId := B }, b0, b1] 0) with hts1def
  have hu1 : UniqueIds ts1 := by
    unfold UniqueIds
    rw [hts1def, map_orderAssign_ids, map_orderAssign_ids, map_moveAssign_ids]
    exact hu
  have hGx : orderAssign [{ x with listId := B }, b0, b1] 0
      (orderAssign [a0, a2] 0 (moveAssign x B x)) =
      { x with listId := B, order := Int.ofNat 0 } := by
    have h1 : moveAssign x B x = { x with listId := B } := by simp [moveAssign]
    have h2 : orderAssign [a0, a2] 0 { x with listId := B } = { x with listId := B } := by
      apply orderAssign_of_not_mem
      intro hm
      simp only [List.map_cons, List.map_nil, List.mem_cons, List.not_mem_nil,
        or_false] at hm
      rcases hm with h | h
      · exact ha0x h.symm
      · exact hxa2 h
    rw [h1, h2]
    simp [orderAssign]
  have hX1mem : ({ x with listId := B, order := Int.ofNat 0 } : TaskItem) ∈ ts1 := by
    rw [hts1def]
    have h3 := List.mem_map_of_mem (orderAssign [{ x with listId := B }, b0, b1] 0)
      (List.mem_map_of_mem (orderAssign [a0, a2] 0)
        (List.mem_map_of_mem (moveAssign x B) hxts))
    rw [hGx] at h3
    exact h3
  -- the target-list members of the intermediate collection
  have hff : (ts.filter (fun u => u.taskId == x.taskId || u.listId == B)).filter
      (fun u => u.taskId != x.taskId) = members ts B := by
    rw [List.filter_filter]
    unfold members
    apply List.filter_congr
    intro u hu2
    by_cases hux : u.taskId = x.taskId
    · have hue : u = x := uniqueIds_eq_of_taskId hu hu2 hxts hux
      rw [hue, hxl]
      simp [hAB]
    · have hp : (u.taskId == x.taskId) = false := beq_eq_false_iff_ne.mpr hux
      have hq : (u.taskId != x.taskId) = true := bne_iff_ne.mpr hux
      simp [hp, hq]
  have hmemB1 : (members ts1 B).filter (fun u => u.taskId != x.taskId) =
      (((members ts B).map (moveAssign x B)).map (orderAssign [a0, a2] 0)).map
        (orderAssign [{ x with listId := B }, b0, b1] 0) := by
    rw [hts1def]
    rw [members_map_of_preserve _ _ _
      (fun u => (orderAssign_fields [{ x with listId := B }, b0, b1] 0 u).2.1)]
    rw [members_map_of_preserve _ _ _ (fun u => (orderAssign_fields [a0, a2] 0 u).2.1)]
    rw [members_moveAssign_tgt ts x A B hu hxts hxl hAB]
    rw [filter_id_map _ (fun u => (orderAssign_fields [{ x with listId := B }, b0, b1] 0 u).1)]
    rw [filter_id_map _ (fun u => (orderAssign_fields [a0, a2] 0 u).1)]
    rw [filter_id_map _ (moveAssign_taskId x B)]
    rw [hff]
  have hpermB : List.Perm (members ts B) [b0, b1] := by
    have h : List.Perm (sortByOrder (members ts B)) (members ts B) := sortK_perm _ _
    rw [hB] at h
    exact h.symm
  have hseqS2 : sortByOrder ((members ts1 B).filter (fun u => u.taskId != x.taskId)) =
      [{ b0 with order := Int.ofNat 1 }, { b1 with order := Int.ofNat 2 }] := by
    rw [hmemB1]
    apply sortByOrder_eq_of_perm
    · have h := ((hpermB.map (moveAssign x B)).map (orderAssign [a0, a2] 0)).map
        (orderAssign [{ x with listId := B }, b0, b1] 0)
      have eb1 : moveAssign x B b0 = b0 := by simp [moveAssign, fb0x]
      have eb2 : moveAssign x B b1 = b1 := by simp [moveAssign, fb1x]
      have eb3 : orderAssign [a0, a2] 0 b0 = b0 := by
        apply orderAssign_of_not_mem
        intro hm
        simp only [List.map_cons, List.map_nil, List.mem_cons, List.not_mem_nil,
          or_false] at hm
        rcases hm with h1 | h1
        · exact ha0b0 h1.symm
        · exact ha2b0 h1.symm
      have eb4 : orderAssign [a0, a2] 0 b1 = b1 := by
        apply orderAssign_of_not_mem
        intro hm
        simp only [List.map_cons, List.map_nil, List.mem_cons, List.not_mem_nil,
          or_false] at hm
        rcases hm with h1 | h1
        · exact ha0b1 h1.symm
        · exact ha2b1 h1.symm
      have eb5 : orderAssign [{ x with listId := B }, b0, b1] 0 b0 =
          { b0 with order := Int.ofNat 1 } := by
        simp [orderAssign, fxb0]
      have eb6 : orderAssign [{ x with listId := B }, b0, b1] 0 b1 =
          { b1 with order := Int.ofNat 2 } := by
        simp [orderAssign, fxb1, fb0b1]
      have he : ((([b0, b1].map (moveAssign x B)).map (orderAssign [a0, a2] 0)).map
          (orderAssign [{ x with listId := B }, b0, b1] 0)) =
          [{ b0 with order := Int.ofNat 1 }, { b1 with order := Int.ofNat 2 }] := by
        simp only [List.map_cons, List.map_nil]
        rw [eb1, eb2, eb3, eb4, eb5, eb6]
      rw [he] at h
      exact h
    · simp
  -- the source-list members of the intermediate collection
  have hmemA1 : members ts1 A =
      (((members ts A).filter (fun u => u.taskId != x.taskId)).map
        (orderAssign [a0, a2] 0)).map
        (orderAssign [{ x with listId := B }, b0, b1] 0) := by
    rw [hts1def]
    rw [members_map_of_preserve _ _ _
      (fun u => (orderAssign_fields [{ x with listId := B }, b0, b1] 0 u).2.1)]
    rw [members_map_of_preserve _ _ _ (fun u => (orderAssign_fields [a0, a2] 0 u).2.1)]
    rw [members_moveAssign_src ts x A B hu hxts hxl hAB]
  have hpermAf : List.Perm ((members ts A).filter (fun u => u.taskId != x.taskId))
      [a0, a2] := by
    have h : List.Perm (sortByOrder ((members ts A).filter (fun u => u.taskId != x.taskId)))
        ((members ts A).filter (fun u => u.taskId != x.taskId)) := sortK_perm _ _
    rw [hseqS1] at h
    exact h.symm
  have hsortA1 : sortByOrder (members ts1 A) = [a0, { a2 with order := Int.ofNat 1 }] := by
    rw [hmemA1]
    apply sortByOrder_eq_of_perm
    · have h := (hpermAf.map (orderAssign [a0, a2] 0)).map
        (orderAssign [{ x with listId := B }, b0, b1] 0)
      have e1 : orderAssign [a0, a2] 0 a0 = a0 := by
        have h1 : orderAssign [a0, a2] 0 a0 = { a0 with order := Int.ofNat 0 } := by
          simp [orderAssign]
        rw [h1, ← ha0o]
      have e2 : orderAssign [{ x with listId := B }, b0, b1] 0 a0 = a0 := by
        apply orderAssign_of_not_mem
        intro hm
        simp only [List.map_cons, List.map_nil, List.mem_cons, List.not_mem_nil,
          or_false] at hm
        rcases hm with h1 | h1 | h1
        · exact ha0x h1
        · exact ha0b0 h1
        · exact ha0b1 h1
      have e3 : orderAssign [a0, a2] 0 a2 = { a2 with order := Int.ofNat 1 } := by
        simp [orderAssign, fa0a2]
      have e4 : orderAssign [{ x with listId := B }, b0, b1] 0
          { a2 with order := Int.ofNat 1 } = { a2 with order := Int.ofNat 1 } := by
        apply orderAssign_of_not_mem
        intro hm
        simp only [List.map_cons, List.map_nil, List.mem_cons, List.not_mem_nil,
          or_false] at hm
        rcases hm with h1 | h1 | h1
        · exact hxa2 h1.symm
        · exact ha2b0 h1
        · exact ha2b1 h1
      have he : (([a0, a2].map (orderAssign [a0, a2] 0)).map
          (orderAssign [{ x with listId := B }, b0, b1] 0)) =
          [a0, { a2 with order := Int.ofNat 1 }] := by
        simp only [List.map_cons, List.map_nil]
        rw [e1, e3, e2, e4]
      rw [he] at h
      exact h
    · simp [ha0o]
  have hsp : spliceInsert [a0, { a2 with order := Int.ofNat 1 }] 1
      { x with listId := A, order := Int.ofNat 0 } =
      [a0, { x with listId := A, order := Int.ofNat 0 },
        { a2 with order := Int.ofNat 1 }] := rfl
  have hmove2 : commitDrop x.taskId B A 1 ts1 =
      some (((ts1.map (moveAssign { x with listId := B, order := Int.ofNat 0 } A)).map
          (orderAssign (sortByOrder ((members ts1 B).filter
            (fun u => u.taskId != x.taskId))) 0)).map
        (orderAssign (spliceInsert (sortByOrder (members ts1 A)) 1
          { x with listId := A, order := Int.ofNat 0 }) 0)) :=
    commitDrop_cross_eq ts1 { x with listId := B, order := Int.ofNat 0 } B A 1
      hu1 hX1mem rfl (Ne.symm hAB)
  rw [hseqS2, hsortA1, hsp] at hmove2
  have hfinal : ((ts1.map (moveAssign { x with listId := B, order := Int.ofNat 0 } A)).map
      (orderAssign [{ b0 with order := Int.ofNat 1 }, { b1 with order := Int.ofNat 2 }] 0)).map
      (orderAssign [a0, { x with listId := A, order := Int.ofNat 0 },
        { a2 with order := Int.ofNat 1 }] 0) = ts := by
    rw [hts1def]
    simp only [List.map_map]
    apply map_eq_self
    intro u hu2
    simp only [Function.comp_apply]
    by_cases hux : u.taskId = x.taskId
    · have hue : x = u := (uniqueIds_eq_of_taskId hu hu2 hxts hux).symm
      subst hue
      have s1 : moveAssign x B x = { x with listId := B } := by simp [moveAssign]
      have s2 : orderAssign [a0, a2] 0 { x with listId := B } = { x with listId := B } := by
        apply orderAssign_of_not_mem
        intro hm
        simp only [List.map_cons, List.map_nil, List.mem_cons, List.not_mem_nil,
          or_false] at hm
        rcases hm with h1 | h1
        · exact ha0x h1.symm
        · exact hxa2 h1
      have s3 : orderAssign [{ x with listId := B }, b0, b1] 0 { x with listId := B } =
          { x with listId := B, order := Int.ofNat 0 } := by
        simp [orderAssign]
      have s4 : moveAssign { x with listId := B, order := Int.ofNat 0 } A
          { x with listId := B, order := Int.ofNat 0 } =
          { x with listId := A, order := Int.ofNat 0 } := by
        simp [moveAssign]
      have s5 : orderAssign [{ b0 with order := Int.ofNat 1 },
          { b1 with order := Int.ofNat 2 }] 0
          { x with listId := A, order := Int.ofNat 0 } =
          { x with listId := A, order := Int.ofNat 0 } := by
        apply orderAssign_of_not_mem
        intro hm
        simp only [List.map_cons, List.map_nil, List.mem_cons, List.not_mem_nil,
          or_false] at hm
        rcases hm with h1 | h1
        · exact hxb0 h1
        · exact hxb1 h1
      have s6 : orderAssign [a0, { x with listId := A, order := Int.ofNat 0 },
          { a2 with order := Int.ofNat 1 }] 0
          { x with listId := A, order := Int.ofNat 0 } =
          { x with listId := A, order := Int.ofNat 1 } := by
        simp [orderAssign, fa0x]
      rw [s1, s2, s3, s4, s5, s6, ← hxo, ← hxl]
    · by_cases hua0 : u.taskId = a0.taskId
      · have hue : a0 = u := (uniqueIds_eq_of_taskId hu hu2 ha0ts hua0).symm
        subst hue
        have s1 : moveAssign x B a0 = a0 := by simp [moveAssign, fa0x]
        have s2 : orderAssign [a0, a2] 0 a0 = { a0 with order := Int.ofNat 0 } := by
          simp [orderAssign]
        have s3 : orderAssign [{ x with listId := B }, b0, b1] 0
            { a0 with order := Int.ofNat 0 } = { a0 with order := Int.ofNat 0 } := by
          apply orderAssign_of_not_mem
          intro hm
          simp only [List.map_cons, List.map_nil, List.mem_cons, List.not_mem_nil,
            or_false] at hm
          rcases hm with h1 | h1 | h1
          · exact ha0x h1
          · exact ha0b0 h1
          · exact ha0b1 h1
        have s4 : moveAssign { x with listId := B, order := Int.ofNat 0 } A
            { a0 with order := Int.ofNat 0 } = { a0 with order := Int.ofNat 0 } := by
          simp [moveAssign, fa0x]
        have s5 : orderAssign [{ b0 with order := Int.ofNat 1 },
            { b1 with order := Int.ofNat 2 }] 0
            { a0 with order := Int.ofNat 0 } = { a0 with order := Int.ofNat 0 } := by
          apply orderAssign_of_not_mem
          intro hm
          simp only [List.map_cons, List.map_nil, List.mem_cons, List.not_mem_nil,
            or_false] at hm
          rcases hm with h1 | h1
          · exact ha0b0 h1
          · exact ha0b1 h1
        have s6 : orderAssign [a0, { x with listId := A, order := Int.ofNat 0 },
            { a2 with order := Int.ofNat 1 }] 0
            { a0 with order := Int.ofNat 0 } = { a0 with order := Int.ofNat 0 } := by
          simp [orderAssign]
        rw [s1, s2, s3, s4, s5, s6, ← ha0o]
      · by_cases hua2 : u.taskId = a2.taskId
        · have hue : a2 = u := (uniqueIds_eq_of_taskId hu hu2 ha2ts hua2).symm
          subst hue
          have s1 : moveAssign x B a2 = a2 := by simp [moveAssign, fa2x]
          have s2 : orderAssign [a0, a2] 0 a2 = { a2 with order := Int.ofNat 1 } := by
            simp [orderAssign, fa0a2]
          have s3 : orderAssign [{ x with listId := B }, b0, b1] 0
              { a2 with order := Int.ofNat 1 } = { a2 with order := Int.ofNat 1 } := by
            apply orderAssign_of_not_mem
            intro hm
            simp only [List.map_cons, List.map_nil, List.mem_cons, List.not_mem_nil,
              or_false] at hm
            rcases hm with h1 | h1 | h1
            · exact hxa2 h1.symm
            · exact ha2b0 h1
            · exact ha2b1 h1
          have s4 : moveAssign { x with listId := B, order := Int.ofNat 0 } A
              { a2 with order := Int.ofNat 1 } = { a2 with order := Int.ofNat 1 } := by
            simp [moveAssign, fa2x]
          have s5 : orderAssign [{ b0 with order := Int.ofNat 1 },
              { b1 with order := Int.ofNat 2 }] 0
              { a2 with order := Int.ofNat 1 } = { a2 with order := Int.ofNat 1 } := by
            apply orderAssign_of_not_mem
            intro hm
            simp only [List.map_cons, List.map_nil, List.mem_cons, List.not_mem_nil,
              or_false] at hm
            rcases hm with h1 | h1
            · exact ha2b0 h1
            · exact ha2b1 h1
          have s6 : orderAssign [a0, { x with listId := A, order := Int.ofNat 0 },
              { a2 with order := Int.ofNat 1 }] 0
              { a2 with order := Int.ofNat 1 } = { a2 with order := Int.ofNat 2 } := by
            simp [orderAssign, fa0a2, fxa2]
          rw [s1, s2, s3, s4, s5, s6, ← ha2o]
        · by_cases hub0 : u.taskId = b0.taskId
          · have hue : b0 = u := (uniqueIds_eq_of_taskId hu hu2 hb0ts hub0).symm
            subst hue
            have s1 : moveAssign x B b0 = b0 := by simp [moveAssign, fb0x]
            have s2 : orderAssign [a0, a2] 0 b0 = b0 := by
              apply orderAssign_of_not_mem
              intro hm
              simp only [List.map_cons, List.map_nil, List.mem_cons, List.not_mem_nil,
                or_false] at hm
              rcases hm with h1 | h1
              · exact ha0b0 h1.symm
              · exact ha2b0 h1.symm
            have s3 : orderAssign [{ x with listId := B }, b0, b1] 0 b0 =
                { b0 with order := Int.ofNat 1 } := by
              simp [orderAssign, fxb0]
            have s4 : moveAssign { x with listId := B, order := Int.ofNat 0 } A
                { b0 with order := Int.ofNat 1 } = { b0 with order := Int.ofNat 1 } := by
              simp [moveAssign, fb0x]
            have s5 : orderAssign [{ b0 with order := Int.ofNat 1 },
                { b1 with order := Int.ofNat 2 }] 0
                { b0 with order := Int.ofNat 1 } = { b0 with order := Int.ofNat 0 } := by
              simp [orderAssign]
            have s6 : orderAssign [a0, { x with listId := A, order := Int.ofNat 0 },
                { a2 with order := Int.ofNat 1 }] 0
                { b0 with order := Int.ofNat 0 } = { b0 with order := Int.ofNat 0 } := by
              apply orderAssign_of_not_mem
              intro hm
              simp only [List.map_cons, List.map_nil, List.mem_cons, List.not_mem_nil,
                or_false] at hm
              rcases hm with h1 | h1 | h1
              · exact ha0b0 h1.symm
              · exact hxb0 h1.symm
              · exact ha2b0 h1.symm
            rw [s1, s2, s3, s4, s5, s6, ← hb0o]
          · by_cases hub1 : u.taskId = b1.taskId
            · have hue : b1 = u := (uniqueIds_eq_of_taskId hu hu2 hb1ts hub1).symm
              subst hue
              have s1 : moveAssign x B b1 = b1 := by simp [moveAssign, fb1x]
              have s2 : orderAssign [a0, a2] 0 b1 = b1 := by
                apply orderAssign_of_not_mem
                intro hm
                simp only [List.map_cons, List.map_nil, List.mem_cons, List.not_mem_nil,
                  or_false] at hm
                rcases hm with h1 | h1
                · exact ha0b1 h1.symm
                · exact ha2b1 h1.symm
              have s3 : orderAssign [{ x with listId := B }, b0, b1] 0 b1 =
                  { b1 with order := Int.ofNat 2 } := by
                simp [orderAssign, fxb1, fb0b1]
              have s4 : moveAssign { x with listId := B, order := Int.ofNat 0 } A
                  { b1 with order := Int.ofNat 2 } = { b1 with order := Int.ofNat 2 } := by
                simp [moveAssign, fb1x]
              have s5 : orderAssign [{ b0 with order := Int.ofNat 1 },
                  { b1 with order := Int.ofNat 2 }] 0
                  { b1 with order := Int.ofNat 2 } = { b1 with order := Int.ofNat 1 } := by
                simp [orderAssign, fb0b1]
              have s6 : orderAssign [a0, { x with listId := A, order := Int.ofNat 0 },
                  { a2 with order := Int.ofNat 1 }] 0
                  { b1 with order := Int.ofNat 1 } = { b1 with order := Int.ofNat 1 } := by
                apply orderAssign_of_not_mem
                intro hm
                simp only [List.map_cons, List.map_nil, List.mem_cons, List.not_mem_nil,
                  or_false] at hm
                rcases hm with h1 | h1 | h1
                · exact ha0b1 h1.symm
                · exact hxb1 h1.symm
                · exact ha2b1 h1.symm
              rw [s1, s2, s3, s4, s5, s6, ← hb1o]
            · have f1 : (u.taskId == x.taskId) = false := beq_eq_false_iff_ne.mpr hux
              have s1 : moveAssign x B u = u := by simp [moveAssign, f1]
              have s2 : orderAssign [a0, a2] 0 u = u := by
                apply orderAssign_of_not_mem
                intro hm
                simp only [List.map_cons, List.map_nil, List.mem_cons, List.not_mem_nil,
                  or_false] at hm
                rcases hm with h1 | h1
                · exact hua0 h1
                · exact hua2 h1
              have s3 : orderAssign [{ x with listId := B }, b0, b1] 0 u = u := by
                apply orderAssign_of_not_mem
                intro hm
                simp only [List.map_cons, List.map_nil, List.mem_cons, List.not_mem_nil,
                  or_false] at hm
                rcases hm with h1 | h1 | h1
                · exact hux h1
                · exact hub0 h1
                · exact hub1 h1
              have s4 : moveAssign { x with listId := B, order := Int.ofNat 0 } A u = u := by
                simp [moveAssign, f1]
              have s5 : orderAssign [{ b0 with order := Int.ofNat 1 },
                  { b1 with order := Int.ofNat 2 }] 0 u = u := by
                apply orderAssign_of_not_mem
                intro hm
                simp only [List.map_cons, List.map_nil, List.mem_cons, List.not_mem_nil,
                  or_false] at hm
                rcases hm with h1 | h1
                · exact hub0 h1
                · exact hub1 h1
              have s6 : orderAssign [a0, { x with listId := A, order := Int.ofNat 0 },
                  { a2 with order := Int.ofNat 1 }] 0 u = u := by
                apply orderAssign_of_not_mem
                intro hm
                simp only [List.map_cons, List.map_nil, List.mem_cons, List.not_mem_nil,
                  or_false] at hm
                rcases hm with h1 | h1 | h1
                · exact hua0 h1
                · exact hux h1
                · exact hua2 h1
              rw [s1, s2, s3, s4, s5, s6]
  rw [hfinal] at hmove2
  exact ⟨ts1, ts, hmove1, hmove2, rfl, hA, hB⟩

theorem C8_round_trip_witness :
    ∃ l1 l2,
      commitDrop "x" "A" "B" 0
        [⟨"a0", "A", 0, "", ""⟩, ⟨"x", "A", 1, "", ""⟩, ⟨"a2", "A", 2, "", ""⟩,
          ⟨"b0", "B", 0, "", ""⟩, ⟨"b1", "B", 1, "", ""⟩, ⟨"c", "C", 0, "", ""⟩] = some l1 ∧
      commitDrop "x" "B" "A" 1 l1 = some l2 ∧
      l2 = [⟨"a0", "A", 0, "", ""⟩, ⟨"x", "A", 1, "", ""⟩, ⟨"a2", "A", 2, "", ""⟩,
          ⟨"b0", "B", 0, "", ""⟩, ⟨"b1", "B", 1, "", ""⟩, ⟨"c", "C", 0, "", ""⟩] ∧
      sortByOrder (members l2 "A") =
        [⟨"a0", "A", 0, "", ""⟩, ⟨"x", "A", 1, "", ""⟩, ⟨"a2", "A", 2, "", ""⟩] ∧
      sortByOrder (members l2 "B") =
        [⟨"b0", "B", 0, "", ""⟩, ⟨"b1", "B", 1, "", ""⟩] :=
  C8_round_trip
    [⟨"a0", "A", 0, "", ""⟩, ⟨"x", "A", 1, "", ""⟩, ⟨"a2", "A", 2, "", ""⟩,
      ⟨"b0", "B", 0, "", ""⟩, ⟨"b1", "B", 1, "", ""⟩, ⟨"c", "C", 0, "", ""⟩]
    ⟨"a0", "A", 0, "", ""⟩ ⟨"x", "A", 1, "", ""⟩ ⟨"a2", "A", 2, "", ""⟩
    ⟨"b0", "B", 0, "", ""⟩ ⟨"b1", "B", 1, "", ""⟩ "A" "B"
    ⟨by decide, denseAll_of_listIds _ (by decide)⟩ (by decide) (by decide) (by decide)
